/- Verification of the block scheduler, spiral ordering, scene intersection,
   tracer, materials and per-consumer delivery state machine of the
   rust-raytracer-example repository, via a shallow embedding in Lean. -/
import Mathlib

namespace Raytracer

/-- Idealized (unbounded-arithmetic) version of src/src/shared.rs `ceil_div`,
used as a proof intermediary; `ceil_div32` below is the u32-wrapping-faithful
one, and `ceil_div32_eq` proves them equal when `x + 31 < 2^32`. -/
def ceil_div (x y : ℕ) : ℕ := (x + y - 1) / y

/-- From src/src/render.rs: coordinates for a block to render. -/
structure RenderBlock where
  x : ℕ
  y : ℕ
  width : ℕ
  height : ℕ
deriving DecidableEq

/-- From src/src/render.rs: generates blocks of up to width,height for an image
of width,height.  `block_index` is the iterator cursor. -/
structure ImageBlocker where
  image_width : ℕ
  image_height : ℕ
  block_width : ℕ
  block_height : ℕ
  block_count_x : ℕ
  block_count_y : ℕ
  block_index : ℕ

/-- Idealized `ImageBlocker::new` (fixed 32x32 block size) with unbounded
arithmetic; `ImageBlocker.new32` below is the u32-faithful constructor. -/
def ImageBlocker.new (image_width image_height : ℕ) : ImageBlocker :=
  { image_width := image_width
    image_height := image_height
    block_width := 32
    block_height := 32
    block_count_x := ceil_div image_width 32
    block_count_y := ceil_div image_height 32
    block_index := 0 }

/-- Idealized `Iterator for ImageBlocker::next` with unbounded arithmetic
(the source computes the y origin with `block_width`; both dimensions are
32); `ImageBlocker.next32` below keeps the source's u32 wrapping, and the two
runs are proved equal for non-overflowing sizes (`imageBlocks32_eq`). -/
def ImageBlocker.next (s : ImageBlocker) : Option (RenderBlock × ImageBlocker) :=
  let block_count := s.block_count_x * s.block_count_y
  if s.block_index ≥ block_count then
    none
  else
    let block_x := s.block_index % s.block_count_x
    let block_y := s.block_index / s.block_count_x
    let x := block_x * s.block_width
    let y := block_y * s.block_width
    let x_end := min ((block_x + 1) * s.block_width) s.image_width
    let y_end := min ((block_y + 1) * s.block_height) s.image_height
    some (⟨x, y, x_end - x, y_end - y⟩, { s with block_index := s.block_index + 1 })

/-- Run the iterator for at most `fuel` steps, collecting the emitted blocks. -/
def blockerRun : ℕ → ImageBlocker → List RenderBlock
  | 0, _ => []
  | fuel + 1, s =>
    match s.next with
    | none => []
    | some (b, s') => b :: blockerRun fuel s'

/-- The idealized emitted-block list (`ImageBlocker::new(w, h).collect()`
with unbounded arithmetic); `imageBlocks32` is the u32-faithful list. -/
def imageBlocks (w h : ℕ) : List RenderBlock :=
  blockerRun (ceil_div w 32 * ceil_div h 32) (ImageBlocker.new w h)

/-- The block the iterator emits at cursor position `i` (closed form). -/
def blockAt (w h : ℕ) (i : ℕ) : RenderBlock :=
  let bcx := ceil_div w 32
  let bx := i % bcx
  let yb := i / bcx
  ⟨bx * 32, yb * 32, min ((bx + 1) * 32) w - bx * 32, min ((yb + 1) * 32) h - yb * 32⟩

/-- An `ImageBlocker` freshly created for a w x h image, with the cursor at `j`. -/
def blockerState (w h j : ℕ) : ImageBlocker :=
  { ImageBlocker.new w h with block_index := j }

theorem blockerRun_eq_map (w h : ℕ) :
    ∀ n j, j + n = ceil_div w 32 * ceil_div h 32 →
      blockerRun n (blockerState w h j) = (List.range' j n).map (blockAt w h) := by
  intro n
  induction n with
  | zero => intro j _; simp [blockerRun]
  | succ n ih =>
    intro j hj
    have hlt : j < ceil_div w 32 * ceil_div h 32 := by omega
    have hnext : (blockerState w h j).next =
        some (blockAt w h j, blockerState w h (j + 1)) := by
      simp only [ImageBlocker.next, blockerState, ImageBlocker.new, blockAt]
      rw [if_neg (by simpa using Nat.not_le.mpr hlt)]
    rw [blockerRun, hnext, List.range']
    simp only [List.map_cons, List.cons.injEq, true_and]
    exact ih (j + 1) (by omega)

theorem imageBlocks_eq_map (w h : ℕ) :
    imageBlocks w h = (List.range (ceil_div w 32 * ceil_div h 32)).map (blockAt w h) := by
  have h0 : ImageBlocker.new w h = blockerState w h 0 := rfl
  rw [imageBlocks, h0, blockerRun_eq_map w h _ 0 (by omega), List.range_eq_range']

/-- Membership of pixel (px, py) in a render block. -/
def containsPx (b : RenderBlock) (px py : ℕ) : Prop :=
  b.x ≤ px ∧ px < b.x + b.width ∧ b.y ≤ py ∧ py < b.y + b.height

instance (b : RenderBlock) (px py : ℕ) : Decidable (containsPx b px py) := by
  unfold containsPx; infer_instance

theorem ceil_div_pos {w : ℕ} (hw : 1 ≤ w) : 1 ≤ ceil_div w 32 := by
  unfold ceil_div; omega

theorem div32_lt_ceil_div {p w : ℕ} (hp : p < w) : p / 32 < ceil_div w 32 := by
  unfold ceil_div; omega

theorem containsPx_blockAt_iff (w h : ℕ) (i px py : ℕ)
    (hpx : px < w) (hpy : py < h) (hw : 1 ≤ w) (hh : 1 ≤ h) :
    containsPx (blockAt w h i) px py ↔ i % ceil_div w 32 = px / 32 ∧ i / ceil_div w 32 = py / 32 := by
  have hbcx := ceil_div_pos hw
  unfold containsPx blockAt
  simp only
  constructor
  · rintro ⟨h1, h2, h3, h4⟩
    omega
  · rintro ⟨h1, h2⟩
    rw [h1, h2]
    omega

theorem imageBlocks_length (w h : ℕ) :
    (imageBlocks w h).length = ceil_div w 32 * ceil_div h 32 := by
  rw [imageBlocks_eq_map]; simp

theorem imageBlocks_getD (w h i : ℕ) (hi : i < ceil_div w 32 * ceil_div h 32) :
    (imageBlocks w h).getD i ⟨0, 0, 0, 0⟩ = blockAt w h i := by
  rw [imageBlocks_eq_map, List.getD_eq_getElem?_getD]
  simp [hi]

theorem blockAt_in_bounds (w h i : ℕ) (hw : 1 ≤ w) (hh : 1 ≤ h)
    (hi : i < ceil_div w 32 * ceil_div h 32) :
    (blockAt w h i).x + (blockAt w h i).width ≤ w ∧
    (blockAt w h i).y + (blockAt w h i).height ≤ h := by
  have hcpos : 0 < ceil_div w 32 := ceil_div_pos hw
  have h1 : i % ceil_div w 32 < ceil_div w 32 := Nat.mod_lt _ hcpos
  have h2 : i / ceil_div w 32 < ceil_div h 32 := by
    rw [Nat.div_lt_iff_lt_mul hcpos, Nat.mul_comm]
    exact hi
  have hcw : ceil_div w 32 = (w + 31) / 32 := by unfold ceil_div; omega
  have hch : ceil_div h 32 = (h + 31) / 32 := by unfold ceil_div; omega
  unfold blockAt
  simp only
  obtain ⟨bx, hbx⟩ : ∃ bx, i % ceil_div w 32 = bx := ⟨_, rfl⟩
  obtain ⟨yb, hyb⟩ : ∃ yb, i / ceil_div w 32 = yb := ⟨_, rfl⟩
  rw [hbx] at h1
  rw [hyb] at h2
  rw [hbx, hyb]
  omega

/-- Partition property of the idealized blocker: blocks lie within bounds,
cover every pixel exactly once, and are pairwise disjoint.  The C2 claim
theorem transfers this to the u32-faithful `imageBlocks32`. -/
theorem imageBlocks_partition (w h : ℕ) (hw : 1 ≤ w) (hh : 1 ≤ h) :
    (∀ b ∈ imageBlocks w h, b.x + b.width ≤ w ∧ b.y + b.height ≤ h) ∧
    (∀ px py, px < w → py < h →
      ∃! i, i < (imageBlocks w h).length ∧
        containsPx ((imageBlocks w h).getD i ⟨0, 0, 0, 0⟩) px py) ∧
    (∀ i j px py, i < (imageBlocks w h).length → j < (imageBlocks w h).length →
      i ≠ j → containsPx ((imageBlocks w h).getD i ⟨0, 0, 0, 0⟩) px py →
      containsPx ((imageBlocks w h).getD j ⟨0, 0, 0, 0⟩) px py → False) := by
  have hcpos : 0 < ceil_div w 32 := ceil_div_pos hw
  refine ⟨?_, ?_, ?_⟩
  · intro b hb
    rw [imageBlocks_eq_map] at hb
    obtain ⟨i, hi, rfl⟩ := List.mem_map.mp hb
    exact blockAt_in_bounds w h i hw hh (List.mem_range.mp hi)
  · intro px py hpx hpy
    have hpxlt : px / 32 < ceil_div w 32 := div32_lt_ceil_div hpx
    have hpylt : py / 32 < ceil_div h 32 := div32_lt_ceil_div hpy
    have hmod : (ceil_div w 32 * (py / 32) + px / 32) % ceil_div w 32 = px / 32 := by
      rw [Nat.mul_add_mod]
      exact Nat.mod_eq_of_lt hpxlt
    have hdiv : (ceil_div w 32 * (py / 32) + px / 32) / ceil_div w 32 = py / 32 := by
      rw [Nat.mul_add_div hcpos, Nat.div_eq_of_lt hpxlt, Nat.add_zero]
    have hbound : ceil_div w 32 * (py / 32) + px / 32 < ceil_div w 32 * ceil_div h 32 := by
      have h' := (Nat.div_lt_iff_lt_mul hcpos).mp (hdiv ▸ hpylt)
      exact h'.trans_eq (Nat.mul_comm _ _)
    refine ⟨ceil_div w 32 * (py / 32) + px / 32, ⟨?_, ?_⟩, ?_⟩
    · rw [imageBlocks_length]; exact hbound
    · rw [imageBlocks_getD w h _ hbound,
        containsPx_blockAt_iff w h _ px py hpx hpy hw hh]
      exact ⟨hmod, hdiv⟩
    · rintro j ⟨hjlen, hjc⟩
      rw [imageBlocks_length] at hjlen
      rw [imageBlocks_getD w h j hjlen,
        containsPx_blockAt_iff w h j px py hpx hpy hw hh] at hjc
      obtain ⟨e1, e2⟩ := hjc
      conv_lhs => rw [← Nat.div_add_mod j (ceil_div w 32)]
      rw [e1, e2]
  · intro i j px py hi hj hne hci hcj
    rw [imageBlocks_length] at hi hj
    rw [imageBlocks_getD w h i hi] at hci
    rw [imageBlocks_getD w h j hj] at hcj
    have hbi := blockAt_in_bounds w h i hw hh hi
    have hpx : px < w := by
      obtain ⟨_, h2, _, _⟩ := hci
      omega
    have hpy : py < h := by
      obtain ⟨_, _, _, h4⟩ := hci
      omega
    rw [containsPx_blockAt_iff w h i px py hpx hpy hw hh] at hci
    rw [containsPx_blockAt_iff w h j px py hpx hpy hw hh] at hcj
    apply hne
    calc i = ceil_div w 32 * (i / ceil_div w 32) + i % ceil_div w 32 :=
        (Nat.div_add_mod i (ceil_div w 32)).symm
    _ = ceil_div w 32 * (j / ceil_div w 32) + j % ceil_div w 32 := by
        rw [hci.1, hci.2, hcj.1, hcj.2]
    _ = j := Nat.div_add_mod j (ceil_div w 32)


/-! Spiral ordering (src/src/render.rs, `Renderer::render_frame`, lines 169-182).
The `ChebyshevIterator` comes from the external `spiral` crate and is modelled
from the spec. -/

/-- Chebyshev (chessboard) distance between two lattice points. -/
def chebDist (p q : ℤ × ℤ) : ℕ := max (p.1 - q.1).natAbs (p.2 - q.2).natAbs

/-- Modelled from the spec: the external spiral crate's `ChebyshevIterator`
(its source is not part of this repository) emits, for each Chebyshev distance
`d` in increasing order, every lattice point at distance exactly `d` from the
center, in a fixed deterministic order; `ringPts` is the ring at distance `d`. -/
def ringPts (cx cy : ℤ) (d : ℕ) : List (ℤ × ℤ) :=
  ((List.range (2 * d + 1)).flatMap fun (i : ℕ) =>
    (List.range (2 * d + 1)).map fun (j : ℕ) =>
      (cx - (d : ℤ) + (i : ℤ), cy - (d : ℤ) + (j : ℤ))).filter
    fun p => decide (chebDist p (cx, cy) = d)

/-- Modelled from the spec: the square (Chebyshev-distance) spiral expanding
from the center out to the given radius, center first. -/
def chebyshevIterator (cx cy : ℤ) (radius : ℕ) : List (ℤ × ℤ) :=
  (List.range (radius + 1)).flatMap (ringPts cx cy)

/-- Idealized spiral pass over the block grid (`i32` division; all operands
are nonnegative so Euclidean and truncated division agree; out-of-range
coordinates are discarded as the source's `continue` does).  This version
omits the source's `as u16` cast of the radius; `spiralCoords32` below keeps
it, and `spiralCoords32_eq` proves them equal when the radius fits in u16. -/
def spiralCoords (block_count_x block_count_y : ℤ) : List (ℤ × ℤ) :=
  let radius := ((max block_count_x block_count_y) / 2 + 1).toNat
  let center_x := block_count_x / 2 - 1
  let center_y := block_count_y / 2 - 1
  (chebyshevIterator center_x center_y radius).filter fun p =>
    decide (0 ≤ p.1 ∧ p.1 < block_count_x ∧ 0 ≤ p.2 ∧ p.2 < block_count_y)

/-- Idealized block index of each surviving spiral coordinate
(`block_y * block_count_x + block_x`). -/
def spiralIdx (w h : ℕ) : List ℕ :=
  (spiralCoords (ceil_div w 32 : ℤ) (ceil_div h 32 : ℤ)).map
    fun p => (p.2 * (ceil_div w 32 : ℤ) + p.1).toNat

/-- Idealized blocks in spiral order
(`spiral_blocks.push(blocks[block_index])`). -/
def spiralBlocks (w h : ℕ) : List RenderBlock :=
  (spiralIdx w h).map fun i => (imageBlocks w h).getD i ⟨0, 0, 0, 0⟩

theorem mem_ringPts {cx cy : ℤ} {d : ℕ} {p : ℤ × ℤ} :
    p ∈ ringPts cx cy d ↔ chebDist p (cx, cy) = d := by
  unfold ringPts
  simp only [List.mem_filter, List.mem_flatMap, List.mem_map, List.mem_range,
    decide_eq_true_eq]
  constructor
  · rintro ⟨_, hd⟩; exact hd
  · intro hd
    have hd' : max (p.1 - cx).natAbs ((p.2 - cy).natAbs) = d := hd
    refine ⟨⟨(p.1 - cx + d).toNat, ?_, ⟨(p.2 - cy + d).toNat, ?_, ?_⟩⟩, hd⟩
    · omega
    · omega
    · refine Prod.ext ?_ ?_
      · show cx - (d : ℤ) + ((p.1 - cx + d).toNat : ℤ) = p.1
        omega
      · show cy - (d : ℤ) + ((p.2 - cy + d).toNat : ℤ) = p.2
        omega

theorem nodup_ringPts (cx cy : ℤ) (d : ℕ) : (ringPts cx cy d).Nodup := by
  apply List.Nodup.filter
  apply List.nodup_flatMap.2
  refine ⟨fun i _ => ?_, ?_⟩
  · refine List.Nodup.map ?_ (List.nodup_range _)
    intro j1 j2 hj
    simp only [Prod.mk.injEq] at hj
    omega
  · have hp : (List.range (2 * d + 1)).Pairwise (· ≠ ·) :=
      (List.pairwise_lt_range _).imp Nat.ne_of_lt
    refine hp.imp ?_
    intro i1 i2 hne
    simp only [Function.onFun]
    rintro ⟨px, py⟩ h1 h2
    simp only [List.mem_map, List.mem_range, Prod.mk.injEq] at h1 h2
    obtain ⟨j1, _, e1, _⟩ := h1
    obtain ⟨j2, _, e2, _⟩ := h2
    exact hne (by omega)

theorem mem_chebyshevIterator {cx cy : ℤ} {r : ℕ} {p : ℤ × ℤ} :
    p ∈ chebyshevIterator cx cy r ↔ chebDist p (cx, cy) ≤ r := by
  unfold chebyshevIterator
  simp only [List.mem_flatMap, List.mem_range]
  constructor
  · rintro ⟨d, hd, hp⟩
    rw [mem_ringPts.mp hp]; omega
  · intro hle
    exact ⟨chebDist p (cx, cy), by omega, mem_ringPts.mpr rfl⟩

theorem nodup_chebyshevIterator (cx cy : ℤ) (r : ℕ) :
    (chebyshevIterator cx cy r).Nodup := by
  apply List.nodup_flatMap.2
  refine ⟨fun d _ => nodup_ringPts cx cy d, ?_⟩
  have hp : (List.range (r + 1)).Pairwise (· ≠ ·) :=
    (List.pairwise_lt_range _).imp Nat.ne_of_lt
  refine hp.imp ?_
  intro d1 d2 hne
  simp only [Function.onFun]
  intro p h1 h2
  exact hne ((mem_ringPts.mp h1).symm.trans (mem_ringPts.mp h2))

theorem mem_spiralCoords {a b : ℤ} (ha : 1 ≤ a) (hb : 1 ≤ b) {p : ℤ × ℤ} :
    p ∈ spiralCoords a b ↔ 0 ≤ p.1 ∧ p.1 < a ∧ 0 ≤ p.2 ∧ p.2 < b := by
  unfold spiralCoords
  simp only [List.mem_filter, decide_eq_true_eq]
  constructor
  · rintro ⟨_, hin⟩; exact hin
  · intro hin
    refine ⟨mem_chebyshevIterator.mpr ?_, hin⟩
    obtain ⟨hx0, hxa, hy0, hyb⟩ := hin
    show max (p.1 - (a / 2 - 1)).natAbs ((p.2 - (b / 2 - 1)).natAbs) ≤
      ((max a b) / 2 + 1).toNat
    omega

theorem nodup_spiralCoords (a b : ℤ) : (spiralCoords a b).Nodup :=
  (nodup_chebyshevIterator _ _ _).filter _

theorem encode_inj {a x1 y1 x2 y2 : ℤ} (h1 : 0 ≤ x1) (h2 : x1 < a)
    (h3 : 0 ≤ x2) (h4 : x2 < a) (e : y1 * a + x1 = y2 * a + x2) :
    x1 = x2 ∧ y1 = y2 := by
  rcases lt_trichotomy y1 y2 with hy | hy | hy
  · exfalso
    have hk : 1 * a ≤ (y2 - y1) * a := mul_le_mul_of_nonneg_right (by omega) (by omega)
    have he : x1 - x2 = (y2 - y1) * a := by linear_combination e
    rw [one_mul] at hk
    linarith
  · subst hy
    exact ⟨by linarith, rfl⟩
  · exfalso
    have hk : 1 * a ≤ (y1 - y2) * a := mul_le_mul_of_nonneg_right (by omega) (by omega)
    have he : x2 - x1 = (y1 - y2) * a := by linear_combination -e
    rw [one_mul] at hk
    linarith

theorem encode_lt {a b x y : ℤ} (hx0 : 0 ≤ x) (hx : x < a) (hy0 : 0 ≤ y)
    (hy : y < b) : y * a + x < a * b :=
  calc y * a + x < y * a + a := by linarith
    _ = (y + 1) * a := by ring
    _ ≤ b * a := mul_le_mul_of_nonneg_right (by omega) (by omega)
    _ = a * b := mul_comm _ _

theorem mem_spiralIdx (w h : ℕ) (hw : 1 ≤ w) (hh : 1 ≤ h) (i : ℕ) :
    i ∈ spiralIdx w h ↔ i < ceil_div w 32 * ceil_div h 32 := by
  have haN := ceil_div_pos hw
  have hbN := ceil_div_pos hh
  have ha : (1 : ℤ) ≤ (ceil_div w 32 : ℤ) := by exact_mod_cast haN
  have hb : (1 : ℤ) ≤ (ceil_div h 32 : ℤ) := by exact_mod_cast hbN
  unfold spiralIdx
  rw [List.mem_map]
  constructor
  · rintro ⟨p, hp, rfl⟩
    obtain ⟨hx0, hxa, hy0, hyb⟩ := (mem_spiralCoords ha hb).mp hp
    have hpn : 0 ≤ p.2 * (ceil_div w 32 : ℤ) + p.1 :=
      add_nonneg (mul_nonneg hy0 (by omega)) hx0
    have hgoal : p.2 * (ceil_div w 32 : ℤ) + p.1 <
        ((ceil_div w 32 * ceil_div h 32 : ℕ) : ℤ) := by
      push_cast
      exact encode_lt hx0 hxa hy0 hyb
    omega
  · intro hi
    refine ⟨(((i % ceil_div w 32 : ℕ) : ℤ), ((i / ceil_div w 32 : ℕ) : ℤ)), ?_, ?_⟩
    · rw [mem_spiralCoords ha hb]
      refine ⟨by positivity, ?_, by positivity, ?_⟩
      · show ((i % ceil_div w 32 : ℕ) : ℤ) < (ceil_div w 32 : ℤ)
        exact_mod_cast Nat.mod_lt _ haN
      · show ((i / ceil_div w 32 : ℕ) : ℤ) < (ceil_div h 32 : ℤ)
        have hcomm : i < ceil_div h 32 * ceil_div w 32 := by
          rw [Nat.mul_comm]; exact hi
        exact_mod_cast (Nat.div_lt_iff_lt_mul haN).mpr hcomm
    · have hcast : ((i / ceil_div w 32 : ℕ) : ℤ) * ((ceil_div w 32 : ℕ) : ℤ) +
          ((i % ceil_div w 32 : ℕ) : ℤ) =
          ((i / ceil_div w 32 * ceil_div w 32 + i % ceil_div w 32 : ℕ) : ℤ) := by
        push_cast; ring
      rw [hcast, Int.toNat_natCast, Nat.div_add_mod']

theorem nodup_spiralIdx (w h : ℕ) (hw : 1 ≤ w) (hh : 1 ≤ h) :
    (spiralIdx w h).Nodup := by
  have ha : (1 : ℤ) ≤ (ceil_div w 32 : ℤ) := by exact_mod_cast ceil_div_pos hw
  have hb : (1 : ℤ) ≤ (ceil_div h 32 : ℤ) := by exact_mod_cast ceil_div_pos hh
  unfold spiralIdx
  apply List.Nodup.map_on ?_ (nodup_spiralCoords _ _)
  intro p hp q hq he
  obtain ⟨hp1, hp2, hp3, hp4⟩ := (mem_spiralCoords ha hb).mp hp
  obtain ⟨hq1, hq2, hq3, hq4⟩ := (mem_spiralCoords ha hb).mp hq
  have hpn : 0 ≤ p.2 * (ceil_div w 32 : ℤ) + p.1 :=
    add_nonneg (mul_nonneg hp3 (by omega)) hp1
  have hqn : 0 ≤ q.2 * (ceil_div w 32 : ℤ) + q.1 :=
    add_nonneg (mul_nonneg hq3 (by omega)) hq1
  have he' : p.2 * (ceil_div w 32 : ℤ) + p.1 = q.2 * (ceil_div w 32 : ℤ) + q.1 := by
    omega
  obtain ⟨e1, e2⟩ := encode_inj hp1 hp2 hq1 hq2 he'
  exact Prod.ext e1 e2

theorem spiralIdx_perm (w h : ℕ) (hw : 1 ≤ w) (hh : 1 ≤ h) :
    (spiralIdx w h).Perm (List.range (ceil_div w 32 * ceil_div h 32)) := by
  apply List.Subperm.antisymm
  · apply List.Nodup.subperm (nodup_spiralIdx w h hw hh)
    intro i hi
    rw [List.mem_range]
    exact (mem_spiralIdx w h hw hh i).mp hi
  · apply List.Nodup.subperm (List.nodup_range _)
    intro i hi
    exact (mem_spiralIdx w h hw hh i).mpr (List.mem_range.mp hi)

theorem map_range_getD (l : List RenderBlock) (d : RenderBlock) :
    (List.range l.length).map (fun i => l.getD i d) = l := by
  apply List.ext_getElem
  · simp
  · intro i h1 h2
    simp [List.getD_eq_getElem?_getD, List.getElem?_eq_getElem, h2]

theorem ringPts_zero (cx cy : ℤ) : ringPts cx cy 0 = [(cx, cy)] := by
  simp [ringPts, chebDist, List.range_succ]

theorem spiralCoords_head {a b : ℤ} (ha : 2 ≤ a) (hb : 2 ≤ b) :
    (spiralCoords a b).head? = some (a / 2 - 1, b / 2 - 1) := by
  simp only [spiralCoords, chebyshevIterator]
  rw [List.range_succ_eq_map, List.flatMap_cons, ringPts_zero, List.singleton_append,
    List.filter_cons]
  have hc : decide (0 ≤ a / 2 - 1 ∧ a / 2 - 1 < a ∧ 0 ≤ b / 2 - 1 ∧ b / 2 - 1 < b) = true := by
    simp only [decide_eq_true_eq]
    omega
  simp only [hc, if_true]
  rfl

/-- Spiral permutation and center-head property of the idealized
(untruncated-radius) spiral; the C3 claim theorem transfers it to the
u32/u16-faithful `spiralBlocks32` for sizes where the radius fits in u16. -/
theorem spiralBlocks_perm_center (w h : ℕ) (hw : 1 ≤ w) (hh : 1 ≤ h) :
    (spiralBlocks w h).Perm (imageBlocks w h) ∧
    (2 ≤ ceil_div w 32 → 2 ≤ ceil_div h 32 →
      (spiralBlocks w h).head? = some ((imageBlocks w h).getD
        ((((ceil_div h 32 : ℤ) / 2 - 1) * (ceil_div w 32 : ℤ) +
          ((ceil_div w 32 : ℤ) / 2 - 1)).toNat) ⟨0, 0, 0, 0⟩)) := by
  constructor
  · have hp := (spiralIdx_perm w h hw hh).map
      (fun i => (imageBlocks w h).getD i ⟨0, 0, 0, 0⟩)
    have hlen : List.range (ceil_div w 32 * ceil_div h 32) =
        List.range ((imageBlocks w h).length) := by rw [imageBlocks_length]
    rw [hlen, map_range_getD] at hp
    exact hp
  · intro h2w h2h
    have ha : (2 : ℤ) ≤ (ceil_div w 32 : ℤ) := by exact_mod_cast h2w
    have hb : (2 : ℤ) ≤ (ceil_div h 32 : ℤ) := by exact_mod_cast h2h
    unfold spiralBlocks spiralIdx
    rw [List.map_map, List.head?_map, spiralCoords_head ha hb]
    rfl


/-! Submission discipline of `Renderer::render_frame` (src/src/render.rs,
lines 184-209): the for-loop pushes one execution per spiral block into the
FuturesOrdered stream, and only after the loop does the collection loop await
results (one completed future per submitted block). -/

/-- A backend interaction event of `render_frame`: submitting one block, or
collecting one completed block result. -/
inductive REvent where
  | submit (b : RenderBlock)
  | collect
deriving DecidableEq

/-- Idealized event trace of `render_frame`: all spiral blocks are submitted
by the for-loop, then the await-loop collects one result per submission;
`renderFrameEvents32` is the u32/u16-faithful trace. -/
def renderFrameEvents (w h : ℕ) : List REvent :=
  ((spiralBlocks w h).map REvent.submit) ++
    List.replicate (spiralBlocks w h).length REvent.collect

/-- Running (current, maximum) count of submissions in flight. -/
def inFlightRun : (ℕ × ℕ) → List REvent → (ℕ × ℕ)
  | p, [] => p
  | (cur, mx), (.submit _) :: rest => inFlightRun (cur + 1, max mx (cur + 1)) rest
  | (cur, mx), .collect :: rest => inFlightRun (cur - 1, mx) rest

/-- The maximum number of submissions in flight over a run of events. -/
def inFlightMax (evts : List REvent) : ℕ := (inFlightRun (0, 0) evts).2

theorem inFlightRun_append (l1 l2 : List REvent) :
    ∀ p, inFlightRun p (l1 ++ l2) = inFlightRun (inFlightRun p l1) l2 := by
  induction l1 with
  | nil => intro p; rfl
  | cons e l1 ih =>
    rintro ⟨cur, mx⟩
    cases e with
    | submit b => rw [List.cons_append, inFlightRun, ih, inFlightRun]
    | collect => rw [List.cons_append, inFlightRun, ih, inFlightRun]

theorem inFlightRun_submits (L : List RenderBlock) :
    ∀ cur mx, cur ≤ mx →
      inFlightRun (cur, mx) (L.map REvent.submit) =
        (cur + L.length, max mx (cur + L.length)) := by
  induction L with
  | nil =>
    intro cur mx hle
    simp [inFlightRun]
    omega
  | cons b L ih =>
    intro cur mx hle
    rw [List.map_cons, inFlightRun, ih (cur + 1) (max mx (cur + 1)) (by omega)]
    refine Prod.ext ?_ ?_
    · show cur + 1 + L.length = cur + (b :: L).length
      simp
      omega
    · show max (max mx (cur + 1)) (cur + 1 + L.length) = max mx (cur + (b :: L).length)
      simp
      omega

theorem inFlightRun_collects (n : ℕ) :
    ∀ cur mx, inFlightRun (cur, mx) (List.replicate n REvent.collect) = (cur - n, mx) := by
  induction n with
  | zero => intro cur mx; simp [inFlightRun]
  | succ n ih =>
    intro cur mx
    rw [List.replicate_succ, inFlightRun, ih]
    refine Prod.ext ?_ rfl
    show cur - 1 - n = cur - (n + 1)
    omega

theorem spiralBlocks_length (w h : ℕ) (hw : 1 ≤ w) (hh : 1 ≤ h) :
    (spiralBlocks w h).length = (imageBlocks w h).length := by
  unfold spiralBlocks
  rw [List.length_map, (spiralIdx_perm w h hw hh).length_eq, List.length_range,
    imageBlocks_length]

/-- Submission discipline of the idealized trace: every block is submitted
before any result is collected, and the in-flight count reaches the total
block count; the C9 claim theorem transfers this to the faithful trace. -/
theorem renderFrame_submits_all (w h : ℕ) (hw : 1 ≤ w) (hh : 1 ≤ h) :
    inFlightMax (renderFrameEvents w h) = (imageBlocks w h).length ∧
    (renderFrameEvents w h).take ((imageBlocks w h).length) =
      (spiralBlocks w h).map REvent.submit := by
  have hlen := spiralBlocks_length w h hw hh
  constructor
  · unfold inFlightMax renderFrameEvents
    rw [inFlightRun_append, inFlightRun_submits _ 0 0 (le_refl 0),
      inFlightRun_collects]
    show max 0 (0 + (spiralBlocks w h).length) = (imageBlocks w h).length
    omega
  · have he : (imageBlocks w h).length = ((spiralBlocks w h).map REvent.submit).length := by
      rw [List.length_map, hlen]
    rw [renderFrameEvents, he, List.take_left]


/-! Geometry and tracing (src/src/shared.rs, material.rs, scene.rs, render.rs).
f32 values are modelled as rationals.  The f32 square root (reached only
through `normalize`, `vec_refract` and the dielectric scatter) has no exact
rational counterpart, so it is passed as an uninterpreted function `sq`; every
theorem below holds for every choice of `sq`.  Thread-local randomness is
modelled by an explicit bundle of the drawn values. -/

/-- Model of glam's `Vec3` (f32 components modelled as rationals). -/
structure Vec3 where
  x : ℚ
  y : ℚ
  z : ℚ
deriving DecidableEq

instance : Add Vec3 := ⟨fun a b => ⟨a.x + b.x, a.y + b.y, a.z + b.z⟩⟩

instance : Sub Vec3 := ⟨fun a b => ⟨a.x - b.x, a.y - b.y, a.z - b.z⟩⟩

instance : Neg Vec3 := ⟨fun a => ⟨-a.x, -a.y, -a.z⟩⟩

instance : Mul Vec3 := ⟨fun a b => ⟨a.x * b.x, a.y * b.y, a.z * b.z⟩⟩

instance : SMul ℚ Vec3 := ⟨fun c a => ⟨c * a.x, c * a.y, c * a.z⟩⟩

def Vec3.dot (a b : Vec3) : ℚ := a.x * b.x + a.y * b.y + a.z * b.z

def Vec3.length_squared (a : Vec3) : ℚ := a.dot a

/-- glam's `normalize` scales by the reciprocal square root of the squared
length; `sq` models the f32 square root. -/
def Vec3.normalize (sq : ℚ → ℚ) (v : Vec3) : Vec3 :=
  (1 / sq v.length_squared) • v

/-- From src/src/shared.rs, `VecExt::near_zero`. -/
def Vec3.near_zero (v : Vec3) : Bool :=
  decide (|v.x| < 1 / 100000000 ∧ |v.y| < 1 / 100000000 ∧ |v.z| < 1 / 100000000)

/-- `Color` and `Point3` are aliases of `Vec3` in src/src/shared.rs. -/
abbrev Color := Vec3

abbrev Point3 := Vec3

/-- From src/src/shared.rs: a minimal ray. -/
structure Ray where
  origin : Point3
  direction : Vec3
deriving DecidableEq

/-- From src/src/shared.rs: a RayQuery for intersection. -/
structure RayQuery where
  ray : Ray
  t_min : ℚ
  t_max : ℚ
deriving DecidableEq

/-- From src/src/shared.rs: `TRACE_EPSILON` (0.001). -/
def TRACE_EPSILON : ℚ := 1 / 1000

/-- From src/src/shared.rs: `TRACE_INFINITY` (`f32::MAX`, whose exact value
is 2^128 - 2^104, written as a literal so that proofs can evaluate it). -/
def TRACE_INFINITY : ℚ := 340282346638528859811704183484516925440

/-- From src/src/shared.rs, `vec_reflect`. -/
def vec_reflect (v n : Vec3) : Vec3 := v - (2 * v.dot n) • n

/-- From src/src/shared.rs, `vec_refract` (`sq` models `f32::sqrt`). -/
def vec_refract (sq : ℚ → ℚ) (uv n : Vec3) (etai_over_etat : ℚ) : Vec3 :=
  let cos_theta := min ((-uv).dot n) 1
  let r_out_perp := etai_over_etat • (uv + cos_theta • n)
  let r_out_parallel := (-(sq |1 - r_out_perp.length_squared|)) • n
  r_out_perp + r_out_parallel

/-- From src/src/shared.rs, `reflectance` (Schlick approximation;
`powf(5.0)` on a nonnegative base is the fifth power). -/
def reflectance (cosine ref_idx : ℚ) : ℚ :=
  let r0 := (1 - ref_idx) / (1 + ref_idx)
  let r0 := r0 * r0
  r0 + (1 - r0) * (1 - cosine) ^ (5 : ℕ)

/-- From src/src/material.rs: the material variants. -/
structure Lambertian where
  albedo : Color
deriving DecidableEq

structure Metal where
  albedo : Color
  fuzz : ℚ
deriving DecidableEq

structure Dielectric where
  ir : ℚ
deriving DecidableEq

inductive Material where
  | lambertian (m : Lambertian)
  | metal (m : Metal)
  | dielectric (m : Dielectric)
deriving DecidableEq

/-- Modelled from the spec: object.rs is not under src/.  `HitRecord` carries
hit distance `t`, point, surface normal, front-face flag and the hit material
(spec section 3). -/
structure HitRecord where
  t : ℚ
  point : Point3
  normal : Vec3
  front_face : Bool
  material : Material
deriving DecidableEq

/-- From src/src/material.rs: result of `Material::scatter`. -/
structure ScatterResult where
  attenuation : Color
  scattered_ray : Ray
deriving DecidableEq

/-- Model of the thread-local RNG: the values one scatter call draws.
`unit_vec` stands for `random_unit_vector()`, `in_sphere` for
`random_in_unit_sphere()`, `uniform` for `rng.gen_range(0.0..1.0)`. -/
structure RngBundle where
  unit_vec : Vec3
  in_sphere : Vec3
  uniform : ℚ

/-- From src/src/material.rs, `Lambertian::scatter`. -/
def Lambertian.scatter (m : Lambertian) (rng : RngBundle) (_ray : Ray)
    (hit : HitRecord) : Option ScatterResult :=
  let scatter_direction := hit.normal + rng.unit_vec
  let scatter_direction :=
    if scatter_direction.near_zero then hit.normal else scatter_direction
  some ⟨m.albedo, ⟨hit.point, scatter_direction⟩⟩

/-- From src/src/material.rs, `Metal::scatter`. -/
def Metal.scatter (m : Metal) (sq : ℚ → ℚ) (rng : RngBundle) (ray : Ray)
    (hit : HitRecord) : Option ScatterResult :=
  let reflected := vec_reflect (ray.direction.normalize sq) hit.normal
  some ⟨m.albedo, ⟨hit.point, reflected + m.fuzz • rng.in_sphere⟩⟩

/-- From src/src/material.rs, `Dielectric::scatter`. -/
def Dielectric.scatter (m : Dielectric) (sq : ℚ → ℚ) (rng : RngBundle)
    (ray : Ray) (hit : HitRecord) : Option ScatterResult :=
  let attenuation : Color := ⟨1, 1, 1⟩
  let refraction_ratio := if hit.front_face then 1 / m.ir else m.ir
  let unit_direction := ray.direction.normalize sq
  let cos_theta := min ((-unit_direction).dot hit.normal) 1
  let sin_theta := sq (1 - cos_theta * cos_theta)
  let cannot_refract := refraction_ratio * sin_theta > 1
  let direction :=
    if cannot_refract ∨ reflectance cos_theta refraction_ratio > rng.uniform then
      vec_reflect unit_direction hit.normal
    else
      vec_refract sq unit_direction hit.normal refraction_ratio
  some ⟨attenuation, ⟨hit.point, direction⟩⟩

/-- From src/src/material.rs, `Material::scatter`: dispatch on the variant. -/
def Material.scatter (mat : Material) (sq : ℚ → ℚ) (rng : RngBundle)
    (ray : Ray) (hit : HitRecord) : Option ScatterResult :=
  match mat with
  | .lambertian m => m.scatter rng ray hit
  | .metal m => m.scatter sq rng ray hit
  | .dielectric m => m.scatter sq rng ray hit

/-- Modelled from the spec: object.rs (the `Sphere` geometry) is not under
src/.  An object is represented by its geometric hit function for a ray;
`intersect` tests that hit against the query's half-open valid interval
`[t_min, t_max)` (spec section 3: Ray/RayQuery). -/
structure Sphere where
  hit : Ray → Option HitRecord

/-- Modelled from the spec: an object's `intersect` yields its hit only when
the hit distance lies in the query's current `[t_min, t_max)` interval. -/
def Sphere.intersect (s : Sphere) (q : RayQuery) : Option HitRecord :=
  match s.hit q.ray with
  | none => none
  | some h => if q.t_min ≤ h.t ∧ h.t < q.t_max then some h else none

/-- Modelled from the spec: the external bvh crate's acceleration structure
is consumed as "give nearest-hit candidates for a ray" (spec section 6); it
is represented by its traversal, which yields the `hittable_index` values of
the bounds whose volumes the ray may hit. -/
structure BVH where
  traverse : Ray → List ℕ

/-- Modelled from the spec: building indexes all object bounds; this model's
traversal conservatively yields every candidate (the `Scene.intersect`
theorems are stated for an arbitrary traversal). -/
def BVH.build (bounds : List ℕ) : BVH := ⟨fun _ => bounds⟩

/-- From src/src/scene.rs: the scene.  `bounds` keeps the `hittable_index` of
each computed bound (the rest of `HittableBounds` lives in the missing
object.rs); `objects_other` (the `dyn RayHittable` list) is modelled with the
same hit-function representation as spheres. -/
structure Scene where
  objects_other : List Sphere
  objects_sphere : List Sphere
  bounds : List ℕ
  bvh : Option BVH

/-- From src/src/scene.rs, `Scene::new`. -/
def Scene.new : Scene := ⟨[], [], [], none⟩

/-- From src/src/scene.rs, `Scene::add_sphere`. -/
def Scene.add_sphere (s : Scene) (sp : Sphere) : Scene :=
  { s with objects_sphere := s.objects_sphere ++ [sp] }

/-- From src/src/scene.rs, `Scene::build_bvh`: push one bound per
`objects_other` entry (indexed from 0), then one per sphere (indexed from 0),
then build the index over them. -/
def Scene.build_bvh (s : Scene) : Scene :=
  let bounds := s.bounds ++ List.range s.objects_other.length ++
    List.range s.objects_sphere.length
  { s with bounds := bounds, bvh := some (BVH.build bounds) }

/-- The default object used to model Rust's panicking out-of-bounds index
(never reached on in-range candidate lists): it hits nothing. -/
def noSphere : Sphere := ⟨fun _ => none⟩

/-- From src/src/scene.rs, `Scene::intersect`, lines 58-74: the candidate
loop.  Each candidate is tested against the current (possibly shrunk) query;
on any hit the query's `t_max` is shrunk to `min t_max t`; the closest hit so
far is kept, strict comparison preferring the earlier hit on ties. -/
def intersectLoop (objects : List Sphere) :
    List ℕ → RayQuery → Option HitRecord → Option HitRecord
  | [], _, closest => closest
  | idx :: rest, query, closest =>
    let obj := objects.getD idx noSphere
    let hit_option := obj.intersect query
    let query' :=
      match hit_option with
      | some hit => { query with t_max := min query.t_max hit.t }
      | none => query
    match closest, hit_option with
    | none, ho => intersectLoop objects rest query' ho
    | some ch, some hit =>
      if hit.t < ch.t then intersectLoop objects rest query' (some hit)
      else intersectLoop objects rest query' (some ch)
    | some ch, none => intersectLoop objects rest query' (some ch)

/-- From src/src/scene.rs, `Scene::intersect`: traverse the index (when
built) and fold the candidates; with no index the loop body is skipped and
the initial `None` is returned. -/
def Scene.intersect (s : Scene) (query : RayQuery) : Option HitRecord :=
  match s.bvh with
  | none => none
  | some bvh => intersectLoop s.objects_sphere (bvh.traverse query.ray) query none

/-- One step of the specification-side scan: test the candidate against the
fixed original interval and keep the minimum-`t` hit, the earlier one on
ties. -/
def specStep (objects : List Sphere) (query : RayQuery)
    (closest : Option HitRecord) (idx : ℕ) : Option HitRecord :=
  match closest, (objects.getD idx noSphere).intersect query with
  | none, ho => ho
  | some ch, some hit => if hit.t < ch.t then some hit else some ch
  | some ch, none => some ch

/-- Specification-side nearest hit (spec section 4.1): scan the same
candidates against the fixed original interval, keeping the minimum-`t` hit,
the first one encountered on ties. -/
def specNearest (objects : List Sphere) (cands : List ℕ)
    (query : RayQuery) : Option HitRecord :=
  cands.foldl (specStep objects query) none

/-- From src/src/render.rs, `ray_color` (lines 91-122): bounded-depth
recursive tracing.  The second component models `*ray_count += 1` (one count
per `scene.intersect` call). -/
def ray_color (sq : ℚ → ℚ) (rng : RngBundle) (scene : Scene) (ray : Ray)
    (depth : ℤ) : Color × ℕ :=
  if h : depth ≤ 0 then (⟨0, 0, 0⟩, 0)
  else
    let query : RayQuery := ⟨ray, TRACE_EPSILON, TRACE_INFINITY⟩
    match scene.intersect query with
    | some hitr =>
      match hitr.material.scatter sq rng ray hitr with
      | some sc =>
        let r := ray_color sq rng scene sc.scattered_ray (depth - 1)
        (sc.attenuation * r.1, r.2 + 1)
      | none => (⟨0, 0, 0⟩, 1)
    | none =>
      let unit_direction := ray.direction.normalize sq
      let t := (1 / 2 : ℚ) * (unit_direction.y + 1)
      ((1 - t) • (⟨1, 1, 1⟩ : Color) + t • (⟨1 / 2, 7 / 10, 1⟩ : Color), 1)
termination_by depth.toNat
decreasing_by omega

/-- The scene with no objects, built exactly as the server does
(`Scene::new` then `build_bvh`). -/
def emptyScene : Scene := Scene.new.build_bvh

theorem emptyScene_intersect (q : RayQuery) : emptyScene.intersect q = none := rfl

/-- C6: for every ray traced against the built empty scene, at every depth
at least 1 (and for every square-root model and every randomness), `ray_color`
returns exactly the background gradient
`(1 - t) * (1,1,1) + t * (0.5, 0.7, 1.0)` with
`t = 0.5 * (unit_direction.y + 1)`. -/
theorem claim_C6 (sq : ℚ → ℚ) (rng : RngBundle) (ray : Ray) (depth : ℤ)
    (hd : 1 ≤ depth) :
    (ray_color sq rng emptyScene ray depth).1 =
      (1 - (1 / 2 : ℚ) * ((ray.direction.normalize sq).y + 1)) • (⟨1, 1, 1⟩ : Color) +
        ((1 / 2 : ℚ) * ((ray.direction.normalize sq).y + 1)) • (⟨1 / 2, 7 / 10, 1⟩ : Color) := by
  rw [ray_color]
  rw [dif_neg (by omega : ¬ depth ≤ 0)]
  simp only [emptyScene_intersect]

/-- Witness for C6 at a concrete ray and depth. -/
theorem claim_C6_witness :
    (1 : ℤ) ≤ 5 ∧
    (ray_color id ⟨⟨0, 0, 0⟩, ⟨0, 0, 0⟩, 0⟩ emptyScene ⟨⟨0, 0, 0⟩, ⟨0, 3, 4⟩⟩ 5).1 =
      (1 - (1 / 2 : ℚ) * (((⟨0, 3, 4⟩ : Vec3).normalize id).y + 1)) • (⟨1, 1, 1⟩ : Color) +
        ((1 / 2 : ℚ) * (((⟨0, 3, 4⟩ : Vec3).normalize id).y + 1)) • (⟨1 / 2, 7 / 10, 1⟩ : Color) :=
  ⟨by decide, claim_C6 id ⟨⟨0, 0, 0⟩, ⟨0, 0, 0⟩, 0⟩ ⟨⟨0, 0, 0⟩, ⟨0, 3, 4⟩⟩ 5 (by decide)⟩

/-- C8 (amended): calling `Scene::intersect` before `build_bvh` has built the
index does not fail at all -- the traversal block is skipped and `None` is
returned for every query, silently behaving as if no object were hit. -/
theorem claim_C8_amended (s : Scene) (q : RayQuery) (h : s.bvh = none) :
    s.intersect q = none := by
  unfold Scene.intersect
  rw [h]

/-- A concrete object whose geometric hit is at distance 1. -/
def sphereHit1 : Sphere :=
  ⟨fun _ => some ⟨1, ⟨0, 0, 0⟩, ⟨0, 1, 0⟩, true, .lambertian ⟨⟨1/2, 1/2, 1/2⟩⟩⟩⟩

/-- A standard full-interval query. -/
def q0 : RayQuery := ⟨⟨⟨0, 0, 0⟩, ⟨0, 0, 1⟩⟩, TRACE_EPSILON, TRACE_INFINITY⟩

theorem intersectLoop_single (obj : Sphere) (q : RayQuery) (h : HitRecord)
    (hh : obj.hit q.ray = some h) (hc : q.t_min ≤ h.t ∧ h.t < q.t_max) :
    intersectLoop [obj] [0] q none = some h := by
  have hint : obj.intersect q = some h := by
    rw [Sphere.intersect, hh]
    exact if_pos hc
  simp only [intersectLoop, List.getD_cons_zero, hint]

/-- C8 counterexample: on a scene holding an object the ray does hit,
`intersect` before `build_bvh` silently answers `None` -- exactly the
"behaves as if no object were hit" outcome the claim says cannot happen --
while the same scene after `build_bvh` reports the hit. -/
theorem claim_C8_counterexample :
    (Scene.new.add_sphere sphereHit1).intersect q0 = none ∧
    ((Scene.new.add_sphere sphereHit1).build_bvh).intersect q0 =
      some ⟨1, ⟨0, 0, 0⟩, ⟨0, 1, 0⟩, true, .lambertian ⟨⟨1/2, 1/2, 1/2⟩⟩⟩ := by
  constructor
  · rfl
  · show intersectLoop [sphereHit1] [0] q0 none =
      some ⟨1, ⟨0, 0, 0⟩, ⟨0, 1, 0⟩, true, .lambertian ⟨⟨1/2, 1/2, 1/2⟩⟩⟩
    apply intersectLoop_single
    · rfl
    · constructor
      · show TRACE_EPSILON ≤ 1
        norm_num [TRACE_EPSILON]
      · show (1 : ℚ) < TRACE_INFINITY
        norm_num [TRACE_INFINITY]

/-- Witness for the amended C8: the unbuilt one-object scene from the
counterexample input indeed answers `None`. -/
theorem claim_C8_witness :
    (Scene.new.add_sphere sphereHit1).bvh = none ∧
    (Scene.new.add_sphere sphereHit1).intersect q0 = none :=
  ⟨rfl, claim_C8_amended (Scene.new.add_sphere sphereHit1) q0 rfl⟩

theorem Sphere.intersect_hit_none {obj : Sphere} {q : RayQuery}
    (hh : obj.hit q.ray = none) : obj.intersect q = none := by
  rw [Sphere.intersect, hh]

theorem Sphere.intersect_hit_some {obj : Sphere} {q : RayQuery} {h : HitRecord}
    (hh : obj.hit q.ray = some h) :
    obj.intersect q = if q.t_min ≤ h.t ∧ h.t < q.t_max then some h else none := by
  rw [Sphere.intersect, hh]

theorem Sphere.intersect_bounds {obj : Sphere} {q : RayQuery} {h : HitRecord}
    (he : obj.intersect q = some h) : q.t_min ≤ h.t ∧ h.t < q.t_max := by
  rcases hh : obj.hit q.ray with _ | h'
  · rw [Sphere.intersect_hit_none hh] at he
    exact absurd he (by simp)
  · rw [Sphere.intersect_hit_some hh] at he
    by_cases hc : q.t_min ≤ h'.t ∧ h'.t < q.t_max
    · rw [if_pos hc] at he
      obtain rfl : h' = h := by injection he
      exact hc
    · rw [if_neg hc] at he
      exact absurd he (by simp)

theorem intersectLoop_eq_foldl (objects : List Sphere) :
    ∀ (cands : List ℕ) (q0 : RayQuery) (st : Option HitRecord),
      (∀ ch, st = some ch → ch.t ≤ q0.t_max) →
      intersectLoop objects cands
        (match st with
         | some ch => { q0 with t_max := ch.t }
         | none => q0) st =
      cands.foldl (specStep objects q0) st := by
  intro cands
  induction cands with
  | nil =>
    intro q0 st _
    cases st <;> rfl
  | cons idx rest ih =>
    intro q0 st hst
    rcases st with _ | ch
    · -- no closest hit yet: the loop query is still the original one
      rcases hobj : (objects.getD idx noSphere).intersect q0 with _ | h
      · show intersectLoop objects (idx :: rest) q0 none = _
        simp only [intersectLoop, hobj, List.foldl_cons, specStep]
        exact ih q0 none (by intro ch hc; cases hc)
      · obtain ⟨hb1, hb2⟩ := Sphere.intersect_bounds hobj
        show intersectLoop objects (idx :: rest) q0 none = _
        simp only [intersectLoop, hobj, List.foldl_cons, specStep]
        rw [min_eq_right (le_of_lt hb2)]
        exact ih q0 (some h) (by intro ch hc; cases hc; exact le_of_lt hb2)
    · -- closest is `ch` and the loop query has `t_max = ch.t`
      have hch : ch.t ≤ q0.t_max := hst ch rfl
      rcases hh : (objects.getD idx noSphere).hit q0.ray with _ | h
      · -- the object does not geometrically hit the ray at all
        have hiq : (objects.getD idx noSphere).intersect { q0 with t_max := ch.t } = none :=
          Sphere.intersect_hit_none hh
        have hiq0 : (objects.getD idx noSphere).intersect q0 = none :=
          Sphere.intersect_hit_none hh
        simp only [intersectLoop, hiq, List.foldl_cons, specStep, hiq0]
        exact ih q0 (some ch) (by intro c hc; cases hc; exact hch)
      · by_cases hA : q0.t_min ≤ h.t ∧ h.t < ch.t
        · -- the candidate is closer: both sides adopt it
          have hb2 : h.t < q0.t_max := lt_of_lt_of_le hA.2 hch
          have hiq : (objects.getD idx noSphere).intersect { q0 with t_max := ch.t } = some h := by
            rw [Sphere.intersect_hit_some (q := { q0 with t_max := ch.t }) hh]
            exact if_pos hA
          have hiq0 : (objects.getD idx noSphere).intersect q0 = some h := by
            rw [Sphere.intersect_hit_some hh]
            exact if_pos ⟨hA.1, hb2⟩
          simp only [intersectLoop, hiq, List.foldl_cons, specStep, hiq0, if_pos hA.2]
          rw [min_eq_right (le_of_lt hA.2)]
          exact ih q0 (some h) (by intro c hc; cases hc; exact le_of_lt hb2)
        · -- not closer (or out of interval): both sides keep `ch`
          have hiq : (objects.getD idx noSphere).intersect { q0 with t_max := ch.t } = none := by
            rw [Sphere.intersect_hit_some (q := { q0 with t_max := ch.t }) hh]
            exact if_neg hA
          have hspec : specStep objects q0 (some ch) idx = some ch := by
            unfold specStep
            rw [Sphere.intersect_hit_some hh]
            by_cases hB : q0.t_min ≤ h.t ∧ h.t < q0.t_max
            · rw [if_pos hB]
              exact if_neg (fun hlt => hA ⟨hB.1, hlt⟩)
            · rw [if_neg hB]
          simp only [intersectLoop, hiq, List.foldl_cons, hspec]
          exact ih q0 (some ch) (by intro c hc; cases hc; exact hch)

theorem intersectLoop_eq_specNearest (objects : List Sphere) (cands : List ℕ)
    (q0 : RayQuery) :
    intersectLoop objects cands q0 none = specNearest objects cands q0 :=
  intersectLoop_eq_foldl objects cands q0 none (by intro ch hc; cases hc)

/-- C10: every material variant's `scatter`, for every square-root model,
randomness, incoming ray and hit record, returns `Some` scatter result; the
"absorbed" outcome `None` is never produced, so `ray_color`'s absorption
branch is unreachable on a hit. -/
theorem claim_C10 (sq : ℚ → ℚ) (rng : RngBundle) (mat : Material) (ray : Ray)
    (hitr : HitRecord) : (mat.scatter sq rng ray hitr).isSome = true := by
  cases mat <;> rfl

theorem foldl_specStep_none_iff (objects : List Sphere) (q0 : RayQuery) :
    ∀ (cands : List ℕ) (st : Option HitRecord),
      cands.foldl (specStep objects q0) st = none ↔
        st = none ∧ ∀ idx ∈ cands, (objects.getD idx noSphere).intersect q0 = none := by
  intro cands
  induction cands with
  | nil => intro st; simp
  | cons idx rest ih =>
    intro st
    rw [List.foldl_cons, ih]
    constructor
    · rintro ⟨h1, h2⟩
      rcases st with _ | ch
      · rcases ho : (objects.getD idx noSphere).intersect q0 with _ | h
        · refine ⟨rfl, ?_⟩
          intro j hj
          rcases List.mem_cons.mp hj with rfl | hj
          · exact ho
          · exact h2 j hj
        · simp only [specStep, ho] at h1
          cases h1
      · exfalso
        rcases ho : (objects.getD idx noSphere).intersect q0 with _ | h
        · simp only [specStep, ho] at h1
          cases h1
        · simp only [specStep, ho] at h1
          by_cases hlt : h.t < ch.t <;> simp [hlt] at h1
    · rintro ⟨rfl, h2⟩
      have ho := h2 idx (by simp)
      refine ⟨?_, fun j hj => h2 j (List.mem_cons_of_mem _ hj)⟩
      simp only [specStep, ho]

theorem foldl_specStep_mem (objects : List Sphere) (q0 : RayQuery) :
    ∀ (cands : List ℕ) (st : Option HitRecord) (hr : HitRecord),
      cands.foldl (specStep objects q0) st = some hr →
        st = some hr ∨
          ∃ idx ∈ cands, (objects.getD idx noSphere).intersect q0 = some hr := by
  intro cands
  induction cands with
  | nil => intro st hr h; exact Or.inl h
  | cons idx rest ih =>
    intro st hr h
    rw [List.foldl_cons] at h
    rcases ih _ hr h with hstep | ⟨j, hj, hjint⟩
    · rcases st with _ | ch
      · rcases ho : (objects.getD idx noSphere).intersect q0 with _ | h2
        · simp only [specStep, ho] at hstep
          cases hstep
        · simp only [specStep, ho] at hstep
          exact Or.inr ⟨idx, by simp, ho.trans hstep⟩
      · rcases ho : (objects.getD idx noSphere).intersect q0 with _ | h2
        · simp only [specStep, ho] at hstep
          exact Or.inl hstep
        · simp only [specStep, ho] at hstep
          by_cases hlt : h2.t < ch.t
          · rw [if_pos hlt] at hstep
            exact Or.inr ⟨idx, by simp, ho.trans hstep⟩
          · rw [if_neg hlt] at hstep
            exact Or.inl hstep
    · exact Or.inr ⟨j, List.mem_cons_of_mem _ hj, hjint⟩

theorem foldl_specStep_min (objects : List Sphere) (q0 : RayQuery) :
    ∀ (cands : List ℕ) (st : Option HitRecord) (hr : HitRecord),
      cands.foldl (specStep objects q0) st = some hr →
        (∀ ch, st = some ch → hr.t ≤ ch.t) ∧
        (∀ idx ∈ cands, ∀ h2,
          (objects.getD idx noSphere).intersect q0 = some h2 → hr.t ≤ h2.t) := by
  intro cands
  induction cands with
  | nil =>
    intro st hr h
    refine ⟨?_, by simp⟩
    intro ch hch
    rw [hch] at h
    injection h with h
    rw [h]
  | cons idx rest ih =>
    intro st hr h
    rw [List.foldl_cons] at h
    obtain ⟨ih1, ih2⟩ := ih _ hr h
    constructor
    · intro ch hst
      subst hst
      rcases ho : (objects.getD idx noSphere).intersect q0 with _ | h2
      · exact ih1 ch (by simp only [specStep, ho])
      · by_cases hlt : h2.t < ch.t
        · have hle := ih1 h2 (by simp only [specStep, ho]; exact if_pos hlt)
          exact le_trans hle (le_of_lt hlt)
        · exact ih1 ch (by simp only [specStep, ho]; exact if_neg hlt)
    · intro j hj h2 hint
      rcases List.mem_cons.mp hj with rfl | hj
      · rcases st with _ | ch
        · exact ih1 h2 (by simp only [specStep, hint])
        · by_cases hlt : h2.t < ch.t
          · exact ih1 h2 (by simp only [specStep, hint]; exact if_pos hlt)
          · have hle := ih1 ch (by simp only [specStep, hint]; exact if_neg hlt)
            exact le_trans hle (not_lt.mp hlt)
      · exact ih2 j hj h2 hint

/-- C4: for every scene whose index is built (any traversal) and every query,
`Scene::intersect` -- the loop that shrinks `t_max` to each hit found so far
-- returns exactly what the specification scan over the original interval
returns: the first minimum-`t` candidate hit (so ties resolve to the first
candidate encountered); the returned hit is a candidate hit of minimal `t`,
and `None` is returned exactly when no candidate intersects the interval. -/
theorem claim_C4 (s : Scene) (q : RayQuery) (bv : BVH) (hbvh : s.bvh = some bv) :
    s.intersect q = specNearest s.objects_sphere (bv.traverse q.ray) q ∧
    (s.intersect q = none ↔
      ∀ idx ∈ bv.traverse q.ray,
        (s.objects_sphere.getD idx noSphere).intersect q = none) ∧
    (∀ hr, s.intersect q = some hr →
      (∃ idx ∈ bv.traverse q.ray,
        (s.objects_sphere.getD idx noSphere).intersect q = some hr) ∧
      (∀ idx ∈ bv.traverse q.ray, ∀ h2,
        (s.objects_sphere.getD idx noSphere).intersect q = some h2 → hr.t ≤ h2.t)) := by
  have hEq : s.intersect q = specNearest s.objects_sphere (bv.traverse q.ray) q := by
    unfold Scene.intersect
    rw [hbvh]
    exact intersectLoop_eq_specNearest _ _ _
  refine ⟨hEq, ?_, ?_⟩
  · rw [hEq, specNearest, foldl_specStep_none_iff]
    simp
  · intro hr hhr
    rw [hEq] at hhr
    unfold specNearest at hhr
    constructor
    · rcases foldl_specStep_mem _ _ _ _ hr hhr with hbad | hok
      · cases hbad
      · exact hok
    · exact (foldl_specStep_min _ _ _ _ hr hhr).2

/-- A concrete object whose geometric hit is at distance 2. -/
def sphereHit2 : Sphere :=
  ⟨fun _ => some ⟨2, ⟨0, 0, 0⟩, ⟨0, 1, 0⟩, true, .metal ⟨⟨1, 1, 1⟩, 0⟩⟩⟩

/-- A two object scene (hits at t = 2 and t = 1), built. -/
def sceneTwo : Scene :=
  ((Scene.new.add_sphere sphereHit2).add_sphere sphereHit1).build_bvh

/-- Witness for C4 at the concrete two object scene. -/
theorem claim_C4_witness :
    sceneTwo.bvh = some (BVH.build [0, 1]) ∧
    (sceneTwo.intersect q0 =
      specNearest sceneTwo.objects_sphere ((BVH.build [0, 1]).traverse q0.ray) q0 ∧
    (sceneTwo.intersect q0 = none ↔
      ∀ idx ∈ (BVH.build [0, 1]).traverse q0.ray,
        (sceneTwo.objects_sphere.getD idx noSphere).intersect q0 = none) ∧
    (∀ hr, sceneTwo.intersect q0 = some hr →
      (∃ idx ∈ (BVH.build [0, 1]).traverse q0.ray,
        (sceneTwo.objects_sphere.getD idx noSphere).intersect q0 = some hr) ∧
      (∀ idx ∈ (BVH.build [0, 1]).traverse q0.ray, ∀ h2,
        (sceneTwo.objects_sphere.getD idx noSphere).intersect q0 = some h2 →
          hr.t ≤ h2.t))) :=
  ⟨rfl, claim_C4 sceneTwo q0 (BVH.build [0, 1]) rfl⟩

/-! Server-side delivery (src/src/server.rs): the per-consumer delivery state
machine `update_client`, the per-pass driver `update_clients`, and job
replacement `reset_job`.  Actix mailbox sends are modelled by an oracle of
`SendResult`s consumed one per `try_send`; websocket addresses are opaque
natural-number ids. -/

/-- From src/src/server.rs: the job parallelization tag. -/
inductive ParallelType where
  | PerBlock
  | PerFrame
deriving DecidableEq

/-- From src/src/server.rs: render parameters of one job (`u16`/`usize`/`u32`
fields modelled as naturals). -/
structure RenderJob where
  total_frames : ℕ
  samples_per_pixel : ℕ
  width : ℕ
  height : ℕ
  parallel : ParallelType
deriving DecidableEq

/-- From src/src/server.rs, `impl Default for RenderJob`
(40 frames, 128/4 samples, 1280/4 x 720/4, per-frame). -/
def RenderJob.default : RenderJob := ⟨40, 32, 320, 180, .PerFrame⟩

/-- From src/src/server.rs: one completed frame (raw image bytes and the
encoded png thumbnail actually sent to consumers). -/
structure RenderFrame where
  img : List ℕ
  png : List ℕ
deriving DecidableEq

/-- From src/src/server.rs: the shared render state: current job, completed
frames in completion order paired with their frame index, and the optional
finished gif. -/
structure RenderStatus where
  job : RenderJob
  frames : List (ℕ × RenderFrame)
  gif : Option (List ℕ)
deriving DecidableEq

/-- From src/src/server.rs, `impl Default for RenderStatus`. -/
def RenderStatus.default : RenderStatus := ⟨RenderJob.default, [], none⟩

/-- From src/src/server.rs: the per-consumer delivery state machine states. -/
inductive ClientState where
  | NeedsConfig
  | NeedsFrameMeta (i : ℕ)
  | NeedsFrame (i : ℕ)
  | NeedsGifMeta
  | NeedsGif
  | Complete
deriving DecidableEq

/-- From src/src/server.rs: the meta (text) messages. -/
inductive MetaMsg where
  | Frame (index : ℕ)
  | Gif
  | Reset (job : RenderJob) (pool_status : String)
deriving DecidableEq

/-- From src/src/server.rs: a message to a consumer (`MyMsg`): meta text or
binary payload (frame png or gif bytes). -/
inductive MyMsg where
  | Meta (m : MetaMsg)
  | Binary (d : List ℕ)
deriving DecidableEq

/-- Outcome of an actix `try_send` (`Ok`, `SendError::Full`,
`SendError::Closed`). -/
inductive SendResult where
  | ok
  | full
  | closed
deriving DecidableEq

/-- The default pair used to model Rust's panicking `frames[i]` on an
out-of-range index (never reached from valid states). -/
def dfltFrame : ℕ × RenderFrame := (0, ⟨[], []⟩)

/-- From src/src/server.rs, `update_client`, lines 448-473: one iteration of
the loop body -- either break (`none`), advance without sending (the
`continue` arm, `some (none, next)`), or attempt to send a message
(`some (some msg, next)`).  The guard arms appear in source order. -/
def stepClient (cs : ClientState) (render : RenderStatus) (pool_status : String) :
    Option (Option MyMsg × ClientState) :=
  match cs with
  | .NeedsConfig =>
    some (some (.Meta (.Reset render.job pool_status)), .NeedsFrameMeta 0)
  | .NeedsFrameMeta i =>
    if i = render.job.total_frames then some (none, .NeedsGifMeta)
    else if i = render.frames.length then none
    else some (some (.Meta (.Frame (render.frames.getD i dfltFrame).1)), .NeedsFrame i)
  | .NeedsFrame i =>
    some (some (.Binary (render.frames.getD i dfltFrame).2.png), .NeedsFrameMeta (i + 1))
  | .NeedsGifMeta => some (some (.Meta .Gif), .NeedsGif)
  | .NeedsGif =>
    match render.gif with
    | some gif => some (some (.Binary gif), .Complete)
    | none => none
  | .Complete => none

/-- From src/src/server.rs, `update_client`, lines 446-488: the send loop.
On `Ok` the client state advances and the loop continues (the oracle is
shifted past the consumed result); on `Full` or `Closed` the loop breaks with
the state unchanged (the source only differs in the log line).  `fuel` bounds
the loop (any value at least `4 * total_frames + 6` lets it run to its
break). -/
def runClient : (ℕ → SendResult) → ℕ → ClientState → RenderStatus → String →
    List MyMsg × ClientState
  | _, 0, cs, _, _ => ([], cs)
  | send, fuel + 1, cs, render, ps =>
    match stepClient cs render ps with
    | none => ([], cs)
    | some (none, cs2) => runClient send fuel cs2 render ps
    | some (some msg, cs2) =>
      match send 0 with
      | .ok =>
        let p := runClient (fun i => send (i + 1)) fuel cs2 render ps
        (msg :: p.1, p.2)
      | .full => ([], cs)
      | .closed => ([], cs)

/-- The all-successful send oracle. -/
def allOk : ℕ → SendResult := fun _ => .ok

/-- One `update_clients` pass per render snapshot, accumulating the delivered
messages (the controller loop in `main` runs `update_clients` after each
state change). -/
def runPasses (send : ℕ → SendResult) (fuel : ℕ) (ps : String) :
    ClientState → List RenderStatus → List MyMsg × ClientState
  | cs, [] => ([], cs)
  | cs, r :: rs =>
    let p := runClient send fuel cs r ps
    let q := runPasses send fuel ps p.2 rs
    (p.1 ++ q.1, q.2)

/-- From src/src/server.rs: the mutable server state behind the mutex:
connected clients (opaque ids standing for `Addr<MyWs>`) with their delivery
state, and the render status.  The `job_tx` channel handle is an I/O handle
with no bearing on the claims. -/
structure MyServerDataInner where
  clients : List (ℕ × ClientState)
  render : RenderStatus

/-- From src/src/server.rs, `reset_job`, lines 400-404 (the state mutation;
spawning the render thread and returning the frame channel are I/O effects
outside the state): replace the render status wholesale and reset every
connected consumer to `NeedsConfig`. -/
def reset_job (job : RenderJob) (state : MyServerDataInner) : MyServerDataInner :=
  { state with
    render := { job := job, frames := [], gif := none },
    clients := state.clients.map (fun c => (c.1, ClientState.NeedsConfig)) }

/-- From src/src/server.rs, `update_clients`: run `update_client` for every
connected client against the shared render state; entries are never added or
removed here. -/
def update_clients (send : ℕ → ℕ → SendResult) (fuel : ℕ)
    (state : MyServerDataInner) (pool_status : String) : MyServerDataInner :=
  { state with
    clients := state.clients.map
      (fun c => (c.1, (runClient (send c.1) fuel c.2 state.render pool_status).2)) }

/-- C5: replacing the active job via `reset_job` leaves `RenderStatus` holding
exactly the new job with an empty completed-frame list and no gif, and maps
every currently connected consumer's delivery state to `NeedsConfig` (the set
of connected consumers itself is unchanged). -/
theorem claim_C5 (job : RenderJob) (state : MyServerDataInner) :
    (reset_job job state).render.job = job ∧
    (reset_job job state).render.frames = [] ∧
    (reset_job job state).render.gif = none ∧
    (reset_job job state).clients =
      state.clients.map (fun c => (c.1, ClientState.NeedsConfig)) :=
  ⟨rfl, rfl, rfl, rfl⟩

/-- C7 (amended): when a delivery attempt fails because the mailbox is full,
`update_client` leaves that consumer's state unchanged and stops the pass, so
the same pending message is the first one attempted on the next pass; when the
mailbox is closed, `update_client` behaves identically (state unchanged, pass
stopped, an error logged) -- it does not drop the consumer's tracked progress;
that removal happens in the websocket actor's `stopping` handler on
disconnect. -/
theorem claim_C7_amended (send : ℕ → SendResult) (fuel : ℕ)
    (cs cs2 : ClientState) (render : RenderStatus) (ps : String) (msg : MyMsg)
    (hstep : stepClient cs render ps = some (some msg, cs2))
    (hfail : send 0 = SendResult.full ∨ send 0 = SendResult.closed) :
    runClient send (fuel + 1) cs render ps = ([], cs) ∧
    (runClient allOk (fuel + 1) cs render ps).1.head? = some msg := by
  constructor
  · rw [runClient, hstep]
    rcases hfail with hf | hf <;> rw [hf]
  · rw [runClient, hstep]
    rfl

/-- The always-closed send oracle (a consumer whose mailbox has closed). -/
def alwaysClosed : ℕ → SendResult := fun _ => .closed

/-- Witness for the amended C7 at a concrete state. -/
theorem claim_C7_witness :
    (stepClient .NeedsConfig RenderStatus.default "" =
      some (some (.Meta (.Reset RenderJob.default "")), .NeedsFrameMeta 0) ∧
     (alwaysClosed 0 = SendResult.full ∨ alwaysClosed 0 = SendResult.closed)) ∧
    (runClient alwaysClosed 5 .NeedsConfig RenderStatus.default "" =
      ([], .NeedsConfig) ∧
     (runClient allOk 5 .NeedsConfig RenderStatus.default "").1.head? =
       some (.Meta (.Reset RenderJob.default ""))) :=
  ⟨⟨rfl, Or.inr rfl⟩,
    claim_C7_amended alwaysClosed 4 .NeedsConfig (.NeedsFrameMeta 0)
      RenderStatus.default "" (.Meta (.Reset RenderJob.default "")) rfl (Or.inr rfl)⟩

/-- The per-client always-closed oracle. -/
def closedSends : ℕ → ℕ → SendResult := fun _ _ => .closed

/-- C7 counterexample: after a full `update_clients` pass in which the
consumer's mailbox reports `Closed` on every send, the consumer's tracked
progress is NOT dropped: the clients map still contains the consumer, with
its state unchanged -- refuting the claim that a `Closed` send drops the
consumer's progress as on disconnect. -/
theorem claim_C7_counterexample :
    (update_clients closedSends 10
      ⟨[(0, .NeedsConfig)], RenderStatus.default⟩ "").clients =
      [(0, ClientState.NeedsConfig)] ∧
    [(0, ClientState.NeedsConfig)] ≠ ([] : List (ℕ × ClientState)) := by
  constructor
  · rfl
  · decide

/-- Loop measure for `update_client`: strictly decreases along every
non-breaking iteration of the state machine (for states reachable from
`NeedsConfig`). -/
def clientMeasure (N : ℕ) : ClientState → ℕ
  | .NeedsConfig => (2 * N + 3 - 0) * 2
  | .NeedsFrameMeta i => (2 * N + 3 - (2 * i + 1)) * 2 + 1
  | .NeedsFrame i => (2 * N + 3 - (2 * i + 2)) * 2
  | .NeedsGifMeta => (2 * N + 3 - (2 * N + 1)) * 2
  | .NeedsGif => (2 * N + 3 - (2 * N + 2)) * 2
  | .Complete => 0

theorem clientMeasure_le (N : ℕ) (cs : ClientState) :
    clientMeasure N cs ≤ 4 * N + 6 := by
  cases cs <;> simp [clientMeasure] <;> omega

/-- A delivery state consistent with a render snapshot: frame cursors never
run past the recorded frames, and the gif states are only reached once all
frames are recorded. -/
def ValidState (r : RenderStatus) : ClientState → Prop
  | .NeedsConfig => True
  | .NeedsFrameMeta i => i ≤ r.frames.length
  | .NeedsFrame i => i < r.frames.length
  | .NeedsGifMeta => r.frames.length = r.job.total_frames
  | .NeedsGif => r.frames.length = r.job.total_frames
  | .Complete => r.frames.length = r.job.total_frames ∧ r.gif ≠ none

/-- The state at which an `update_client` pass against snapshot `r` comes to
rest when every send succeeds. -/
def stateAt (r : RenderStatus) : ClientState :=
  if r.frames.length < r.job.total_frames then .NeedsFrameMeta r.frames.length
  else if r.gif = none then .NeedsGif
  else .Complete

/-- The frame messages (meta and data, in order) for frames `i, …, N-1` of
the final render. -/
def frameMsgs (rF : RenderStatus) (i : ℕ) : List MyMsg :=
  (List.range' i (rF.job.total_frames - i)).flatMap fun j =>
    [MyMsg.Meta (.Frame (rF.frames.getD j dfltFrame).1),
     MyMsg.Binary (rF.frames.getD j dfltFrame).2.png]

/-- The closing gif messages of a delivery. -/
def tailMsgs (rF : RenderStatus) : List MyMsg :=
  [MyMsg.Meta .Gif, MyMsg.Binary (rF.gif.getD [])]

/-- The messages a consumer in state `cs` still has to receive, relative to
the final render `rF`. -/
def specFrom (rF : RenderStatus) (ps : String) : ClientState → List MyMsg
  | .NeedsConfig => .Meta (.Reset rF.job ps) :: (frameMsgs rF 0 ++ tailMsgs rF)
  | .NeedsFrameMeta i => frameMsgs rF i ++ tailMsgs rF
  | .NeedsFrame i =>
    .Binary (rF.frames.getD i dfltFrame).2.png :: (frameMsgs rF (i + 1) ++ tailMsgs rF)
  | .NeedsGifMeta => tailMsgs rF
  | .NeedsGif => [.Binary (rF.gif.getD [])]
  | .Complete => []

/-- The full delivery sequence of a completed render: `Config`, then for each
`j < N` the meta message carrying the recorded index of the `j`-th completed
frame followed by its png payload, then `GifMeta` and the gif payload. -/
def deliverySeq (rF : RenderStatus) (ps : String) : List MyMsg :=
  specFrom rF ps .NeedsConfig

/-- A snapshot of the shared render state on the way to the final render
`rF`: same job, its recorded frames are a prefix of the final ones, and a
present gif means the render is already complete (the controller builds the
gif only once all frames are recorded). -/
def SnapOf (rF r : RenderStatus) : Prop :=
  r.job = rF.job ∧ (∃ tl, rF.frames = r.frames ++ tl) ∧
  (∀ g, r.gif = some g → rF.gif = some g ∧ r.frames.length = rF.job.total_frames)

/-- Evolution of the shared render state between two consecutive passes:
frames are only appended and a produced gif persists. -/
def MonoStep (r r2 : RenderStatus) : Prop :=
  (∃ tl, r2.frames = r.frames ++ tl) ∧ (∀ g, r.gif = some g → r2.gif = some g)

theorem frameMsgs_cons {rF : RenderStatus} {i : ℕ}
    (hiN : i < rF.job.total_frames) :
    frameMsgs rF i =
      .Meta (.Frame (rF.frames.getD i dfltFrame).1) ::
        .Binary (rF.frames.getD i dfltFrame).2.png :: frameMsgs rF (i + 1) := by
  unfold frameMsgs
  rw [show rF.job.total_frames - i = (rF.job.total_frames - (i + 1)) + 1 by omega]
  rw [List.range'_succ, List.flatMap_cons]
  rfl

theorem frameMsgs_end {rF : RenderStatus} :
    frameMsgs rF rF.job.total_frames = [] := by
  unfold frameMsgs
  rw [Nat.sub_self]
  rfl

theorem runClient_break (send : ℕ → SendResult) (fuel : ℕ) (cs : ClientState)
    (render : RenderStatus) (ps : String)
    (hstep : stepClient cs render ps = none) :
    runClient send (fuel + 1) cs render ps = ([], cs) := by
  rw [runClient, hstep]

theorem runClient_skip (send : ℕ → SendResult) (fuel : ℕ) (cs cs2 : ClientState)
    (render : RenderStatus) (ps : String)
    (hstep : stepClient cs render ps = some (none, cs2)) :
    runClient send (fuel + 1) cs render ps = runClient send fuel cs2 render ps := by
  rw [runClient, hstep]

theorem runClient_ok_send (fuel : ℕ) (cs cs2 : ClientState)
    (render : RenderStatus) (ps : String) (msg : MyMsg)
    (hstep : stepClient cs render ps = some (some msg, cs2)) :
    runClient allOk (fuel + 1) cs render ps =
      (msg :: (runClient allOk fuel cs2 render ps).1,
        (runClient allOk fuel cs2 render ps).2) := by
  rw [runClient, hstep]
  rfl

theorem runClient_ok_spec (rF : RenderStatus) (ps : String)
    (hcomp : rF.frames.length = rF.job.total_frames) :
    ∀ (fuel : ℕ) (r : RenderStatus) (cs : ClientState),
      SnapOf rF r → ValidState r cs →
      clientMeasure rF.job.total_frames cs ≤ fuel →
      (runClient allOk fuel cs r ps).2 = stateAt r ∧
      specFrom rF ps cs =
        (runClient allOk fuel cs r ps).1 ++ specFrom rF ps (stateAt r) := by
  intro fuel
  induction fuel with
  | zero =>
    intro r cs hsnap hvalid hfuel
    obtain ⟨hjob, ⟨tl, htl⟩, hgif⟩ := hsnap
    have hFN : r.frames.length ≤ rF.job.total_frames := by
      have hl := congrArg List.length htl
      rw [List.length_append] at hl
      omega
    cases cs with
    | Complete =>
      obtain ⟨hvF, hvg⟩ := hvalid
      have hNr : r.job.total_frames = rF.job.total_frames := by rw [hjob]
      have hs : stateAt r = .Complete := by
        unfold stateAt
        rw [if_neg (by omega), if_neg hvg]
      refine ⟨?_, ?_⟩
      · rw [runClient, hs]
      · rw [runClient, hs]
        rfl
    | NeedsConfig =>
      exfalso
      simp [clientMeasure] at hfuel
    | NeedsFrameMeta i =>
      exfalso
      simp [clientMeasure] at hfuel
    | NeedsFrame i =>
      exfalso
      have hvi : i < r.frames.length := hvalid
      simp [clientMeasure] at hfuel
      omega
    | NeedsGifMeta =>
      exfalso
      simp [clientMeasure] at hfuel
    | NeedsGif =>
      exfalso
      simp [clientMeasure] at hfuel
  | succ fuel ih =>
    intro r cs hsnap hvalid hfuel
    obtain ⟨hjob, ⟨tl, htl⟩, hgif⟩ := hsnap
    have hsnap' : SnapOf rF r := ⟨hjob, ⟨tl, htl⟩, hgif⟩
    have hFN : r.frames.length ≤ rF.job.total_frames := by
      have hl := congrArg List.length htl
      rw [List.length_append] at hl
      omega
    have hNr : r.job.total_frames = rF.job.total_frames := by rw [hjob]
    have hagree : ∀ j, j < r.frames.length →
        r.frames.getD j dfltFrame = rF.frames.getD j dfltFrame := by
      intro j hj
      rw [htl, List.getD_append _ _ _ _ hj]
    cases cs with
    | NeedsConfig =>
      rw [runClient_ok_send fuel .NeedsConfig (.NeedsFrameMeta 0) r ps
        (.Meta (.Reset r.job ps)) rfl]
      obtain ⟨ihA, ihB⟩ := ih r (.NeedsFrameMeta 0) hsnap'
        (show (0 : ℕ) ≤ r.frames.length by omega)
        (by simp [clientMeasure] at hfuel ⊢; omega)
      refine ⟨ihA, ?_⟩
      rw [hjob, List.cons_append]
      exact congrArg (MyMsg.Meta (.Reset rF.job ps) :: ·) ihB
    | NeedsFrameMeta i =>
      have hvi : i ≤ r.frames.length := hvalid
      by_cases hiN : i = rF.job.total_frames
      · have hstep : stepClient (.NeedsFrameMeta i) r ps = some (none, .NeedsGifMeta) := by
          show (if i = r.job.total_frames then some (none, ClientState.NeedsGifMeta)
            else if i = r.frames.length then none
            else some (some (MyMsg.Meta (MetaMsg.Frame (r.frames.getD i dfltFrame).1)),
              ClientState.NeedsFrame i)) = some (none, ClientState.NeedsGifMeta)
          rw [if_pos (by rw [hNr]; exact hiN)]
        rw [runClient_skip allOk fuel _ _ r ps hstep]
        obtain ⟨ihA, ihB⟩ := ih r .NeedsGifMeta hsnap'
          (show r.frames.length = r.job.total_frames by rw [hNr]; omega)
          (by simp [clientMeasure] at hfuel ⊢; omega)
        refine ⟨ihA, ?_⟩
        show frameMsgs rF i ++ tailMsgs rF = _
        rw [hiN, frameMsgs_end, List.nil_append]
        exact ihB
      · by_cases hiF : i = r.frames.length
        · have hstep : stepClient (.NeedsFrameMeta i) r ps = none := by
            show (if i = r.job.total_frames then some (none, ClientState.NeedsGifMeta)
              else if i = r.frames.length then none
              else some (some (MyMsg.Meta (MetaMsg.Frame (r.frames.getD i dfltFrame).1)),
                ClientState.NeedsFrame i)) = none
            rw [if_neg (by rw [hNr]; exact hiN), if_pos hiF]
          rw [runClient_break allOk fuel _ r ps hstep]
          have hs : stateAt r = .NeedsFrameMeta r.frames.length := by
            unfold stateAt
            rw [if_pos (by rw [hNr]; omega)]
          refine ⟨by rw [hs, hiF], ?_⟩
          rw [hs, ← hiF]
          exact (List.nil_append _).symm
        · have hilt : i < r.frames.length := by omega
          have hstep : stepClient (.NeedsFrameMeta i) r ps =
              some (some (.Meta (.Frame (r.frames.getD i dfltFrame).1)), .NeedsFrame i) := by
            show (if i = r.job.total_frames then some (none, ClientState.NeedsGifMeta)
              else if i = r.frames.length then none
              else some (some (MyMsg.Meta (MetaMsg.Frame (r.frames.getD i dfltFrame).1)),
                ClientState.NeedsFrame i)) =
              some (some (MyMsg.Meta (MetaMsg.Frame (r.frames.getD i dfltFrame).1)),
                ClientState.NeedsFrame i)
            rw [if_neg (by rw [hNr]; exact hiN), if_neg hiF]
          rw [runClient_ok_send fuel _ _ r ps _ hstep]
          obtain ⟨ihA, ihB⟩ := ih r (.NeedsFrame i) hsnap' hilt
            (by simp [clientMeasure] at hfuel ⊢; omega)
          refine ⟨ihA, ?_⟩
          rw [hagree i hilt]
          show frameMsgs rF i ++ tailMsgs rF = _
          rw [frameMsgs_cons (show i < rF.job.total_frames by omega),
            List.cons_append, List.cons_append]
          exact congrArg (MyMsg.Meta (.Frame (rF.frames.getD i dfltFrame).1) :: ·) ihB
    | NeedsFrame i =>
      have hvi : i < r.frames.length := hvalid
      rw [runClient_ok_send fuel (.NeedsFrame i) (.NeedsFrameMeta (i + 1)) r ps
        (.Binary (r.frames.getD i dfltFrame).2.png) rfl]
      obtain ⟨ihA, ihB⟩ := ih r (.NeedsFrameMeta (i + 1)) hsnap'
        (show i + 1 ≤ r.frames.length by omega)
        (by simp [clientMeasure] at hfuel ⊢; omega)
      refine ⟨ihA, ?_⟩
      rw [hagree i hvi]
      show MyMsg.Binary (rF.frames.getD i dfltFrame).2.png ::
        (frameMsgs rF (i + 1) ++ tailMsgs rF) = _
      rw [List.cons_append]
      exact congrArg (MyMsg.Binary (rF.frames.getD i dfltFrame).2.png :: ·) ihB
    | NeedsGifMeta =>
      rw [runClient_ok_send fuel .NeedsGifMeta .NeedsGif r ps (.Meta .Gif) rfl]
      obtain ⟨ihA, ihB⟩ := ih r .NeedsGif hsnap' hvalid
        (by simp [clientMeasure] at hfuel ⊢; omega)
      refine ⟨ihA, ?_⟩
      show MyMsg.Meta .Gif :: [MyMsg.Binary (rF.gif.getD [])] = _
      rw [List.cons_append]
      exact congrArg (MyMsg.Meta .Gif :: ·) ihB
    | NeedsGif =>
      rcases hg : r.gif with _ | g
      · have hstep : stepClient .NeedsGif r ps = none := by
          show (match r.gif with
            | some gif => some (some (MyMsg.Binary gif), ClientState.Complete)
            | none => none) = none
          rw [hg]
        rw [runClient_break allOk fuel _ r ps hstep]
        have hvF : r.frames.length = r.job.total_frames := hvalid
        have hs : stateAt r = .NeedsGif := by
          unfold stateAt
          rw [if_neg (by omega), if_pos hg]
        refine ⟨by rw [hs], ?_⟩
        rw [hs]
        exact (List.nil_append _).symm
      · obtain ⟨hgF, -⟩ := hgif g hg
        have hstep : stepClient .NeedsGif r ps = some (some (.Binary g), .Complete) := by
          show (match r.gif with
            | some gif => some (some (MyMsg.Binary gif), ClientState.Complete)
            | none => none) = some (some (.Binary g), .Complete)
          rw [hg]
        rw [runClient_ok_send fuel _ _ r ps _ hstep]
        obtain ⟨ihA, ihB⟩ := ih r .Complete hsnap'
          (⟨hvalid, by rw [hg]; simp⟩)
          (by simp [clientMeasure])
        refine ⟨ihA, ?_⟩
        show [MyMsg.Binary (rF.gif.getD [])] = _
        rw [hgF]
        show MyMsg.Binary g :: ([] : List MyMsg) = _
        rw [List.cons_append]
        exact congrArg (MyMsg.Binary g :: ·) ihB
    | Complete =>
      obtain ⟨hvF, hvg⟩ := hvalid
      rw [runClient_break allOk fuel .Complete r ps rfl]
      have hs : stateAt r = .Complete := by
        unfold stateAt
        rw [if_neg (by rw [hNr] at hvF; omega), if_neg hvg]
      refine ⟨by rw [hs], ?_⟩
      rw [hs]
      rfl

/-- The last snapshot of a non-empty run `r :: rs`. -/
def lastSnap (r : RenderStatus) (rs : List RenderStatus) : RenderStatus :=
  rs.foldl (fun _ x => x) r

theorem validState_stateAt (rF : RenderStatus)
    (hcomp : rF.frames.length = rF.job.total_frames)
    {r r2 : RenderStatus} (h1 : SnapOf rF r) (h2 : SnapOf rF r2)
    (hm : MonoStep r r2) : ValidState r2 (stateAt r) := by
  obtain ⟨hjob1, ⟨t1, ht1⟩, hg1⟩ := h1
  obtain ⟨hjob2, ⟨t2, ht2⟩, hg2⟩ := h2
  obtain ⟨⟨t3, ht3⟩, hgm⟩ := hm
  have hlen12 : r.frames.length ≤ r2.frames.length := by
    rw [ht3]; simp
  have hFN : r.frames.length ≤ rF.job.total_frames := by
    have hl := congrArg List.length ht1
    rw [List.length_append] at hl
    omega
  have hFN2 : r2.frames.length ≤ rF.job.total_frames := by
    have hl := congrArg List.length ht2
    rw [List.length_append] at hl
    omega
  unfold stateAt
  split_ifs with hlt hgn
  · exact hlen12
  · show r2.frames.length = r2.job.total_frames
    rw [hjob2]
    rw [hjob1] at hlt
    omega
  · obtain ⟨g, hgg⟩ : ∃ g, r.gif = some g := by
      cases hgE : r.gif
      · exact absurd hgE hgn
      · exact ⟨_, rfl⟩
    refine ⟨?_, ?_⟩
    · show r2.frames.length = r2.job.total_frames
      rw [hjob2]
      rw [hjob1] at hlt
      omega
    · rw [hgm g hgg]
      simp

theorem runPasses_ok_spec (rF : RenderStatus) (ps : String)
    (hcomp : rF.frames.length = rF.job.total_frames) (fuel : ℕ)
    (hfuel : 4 * rF.job.total_frames + 6 ≤ fuel) :
    ∀ (rs : List RenderStatus) (r : RenderStatus) (cs : ClientState),
      SnapOf rF r → ValidState r cs → (∀ x ∈ rs, SnapOf rF x) →
      List.Chain MonoStep r rs →
      (runPasses allOk fuel ps cs (r :: rs)).2 = stateAt (lastSnap r rs) ∧
      specFrom rF ps cs = (runPasses allOk fuel ps cs (r :: rs)).1 ++
        specFrom rF ps (stateAt (lastSnap r rs)) := by
  intro rs
  induction rs with
  | nil =>
    intro r cs hsnap hvalid _ _
    have hm : clientMeasure rF.job.total_frames cs ≤ fuel :=
      le_trans (clientMeasure_le _ _) hfuel
    obtain ⟨hA, hB⟩ := runClient_ok_spec rF ps hcomp fuel r cs hsnap hvalid hm
    refine ⟨hA, ?_⟩
    show specFrom rF ps cs =
      (runClient allOk fuel cs r ps).1 ++ [] ++ specFrom rF ps (stateAt r)
    rw [List.append_nil]
    exact hB
  | cons r2 rs' ih =>
    intro r cs hsnap hvalid hall hchain
    have hm : clientMeasure rF.job.total_frames cs ≤ fuel :=
      le_trans (clientMeasure_le _ _) hfuel
    obtain ⟨hA, hB⟩ := runClient_ok_spec rF ps hcomp fuel r cs hsnap hvalid hm
    have hsnap2 : SnapOf rF r2 := hall r2 (by simp)
    have hmono : MonoStep r r2 := (List.chain_cons.mp hchain).1
    have hchain' : List.Chain MonoStep r2 rs' := (List.chain_cons.mp hchain).2
    have hvalid2 : ValidState r2 (stateAt r) :=
      validState_stateAt rF hcomp hsnap hsnap2 hmono
    obtain ⟨ihA, ihB⟩ := ih r2 (stateAt r) hsnap2 hvalid2
      (fun x hx => hall x (by simp [hx])) hchain'
    constructor
    · show (runPasses allOk fuel ps (runClient allOk fuel cs r ps).2 (r2 :: rs')).2 =
        stateAt (lastSnap r2 rs')
      rw [hA]
      exact ihA
    · show specFrom rF ps cs =
        ((runClient allOk fuel cs r ps).1 ++
          (runPasses allOk fuel ps (runClient allOk fuel cs r ps).2 (r2 :: rs')).1) ++
          specFrom rF ps (stateAt (lastSnap r2 rs'))
      rw [hA, List.append_assoc, ← ihB]
      exact hB

/-- C1 (amended): for a consumer connected from the start of a job through a
completed render -- over any chronological sequence of snapshots of the
shared render state (frames only appended, a produced gif persisting, gif
only present once all frames are recorded) ending in the completed state,
with every send succeeding -- the messages `update_client` emits are exactly
`deliverySeq`: `Config`, then for each position `j < N` a `FrameMeta` carrying
the recorded index of the `j`-th completed frame followed by that frame's
data, then `GifMeta` and `GifData`, with no gaps, repeats or reordering; when
frames complete in index order the `j`-th `FrameMeta` carries `j`. -/
theorem claim_C1_amended (rF : RenderStatus) (ps : String) (fuel : ℕ)
    (r1 : RenderStatus) (rs : List RenderStatus)
    (hcomp : rF.frames.length = rF.job.total_frames)
    (hgifF : rF.gif ≠ none)
    (hfuel : 4 * rF.job.total_frames + 6 ≤ fuel)
    (hsnap1 : SnapOf rF r1) (hall : ∀ x ∈ rs, SnapOf rF x)
    (hchain : List.Chain MonoStep r1 rs)
    (hlast : lastSnap r1 rs = rF) :
    (runPasses allOk fuel ps .NeedsConfig (r1 :: rs)).1 = deliverySeq rF ps ∧
    (runPasses allOk fuel ps .NeedsConfig (r1 :: rs)).2 = .Complete := by
  obtain ⟨hA, hB⟩ := runPasses_ok_spec rF ps hcomp fuel hfuel rs r1 .NeedsConfig
    hsnap1 trivial hall hchain
  rw [hlast] at hA hB
  have hstate : stateAt rF = .Complete := by
    unfold stateAt
    rw [if_neg (by omega), if_neg hgifF]
  rw [hstate] at hA hB
  refine ⟨?_, hA⟩
  rw [show specFrom rF ps .Complete = [] from rfl, List.append_nil] at hB
  exact hB.symm

/-- Concrete job and snapshots for the C1 witness (frames completing in index
order, as in per-block mode). -/
def jobW : RenderJob := ⟨2, 1, 4, 4, .PerBlock⟩

def rFW : RenderStatus := ⟨jobW, [(0, ⟨[], [10]⟩), (1, ⟨[], [11]⟩)], some [9]⟩

def rW1 : RenderStatus := ⟨jobW, [], none⟩

def rW2 : RenderStatus := ⟨jobW, [(0, ⟨[], [10]⟩)], none⟩

/-- Witness for the amended C1 on a concrete three-snapshot run. -/
theorem claim_C1_witness :
    (rFW.frames.length = rFW.job.total_frames ∧ rFW.gif ≠ none ∧
      4 * rFW.job.total_frames + 6 ≤ 14 ∧ SnapOf rFW rW1 ∧
      (∀ x ∈ [rW2, rFW], SnapOf rFW x) ∧
      List.Chain MonoStep rW1 [rW2, rFW] ∧ lastSnap rW1 [rW2, rFW] = rFW) ∧
    ((runPasses allOk 14 "" .NeedsConfig (rW1 :: [rW2, rFW])).1 =
      deliverySeq rFW "" ∧
     (runPasses allOk 14 "" .NeedsConfig (rW1 :: [rW2, rFW])).2 = .Complete) := by
  have s1 : SnapOf rFW rW1 :=
    ⟨rfl, ⟨[(0, ⟨[], [10]⟩), (1, ⟨[], [11]⟩)], rfl⟩, fun g hg => nomatch hg⟩
  have s2 : SnapOf rFW rW2 :=
    ⟨rfl, ⟨[(1, ⟨[], [11]⟩)], rfl⟩, fun g hg => nomatch hg⟩
  have s3 : SnapOf rFW rFW :=
    ⟨rfl, ⟨[], (List.append_nil _).symm⟩, fun g hg => ⟨hg, rfl⟩⟩
  have hall : ∀ x ∈ [rW2, rFW], SnapOf rFW x := by
    intro x hx
    rcases List.mem_cons.mp hx with rfl | hx
    · exact s2
    rcases List.mem_cons.mp hx with rfl | hx
    · exact s3
    · cases hx
  have hchain : List.Chain MonoStep rW1 [rW2, rFW] :=
    List.Chain.cons ⟨⟨[(0, ⟨[], [10]⟩)], rfl⟩, fun g hg => nomatch hg⟩
      (List.Chain.cons ⟨⟨[(1, ⟨[], [11]⟩)], rfl⟩, fun g hg => nomatch hg⟩
        List.Chain.nil)
  exact ⟨⟨rfl, by simp [rFW], by decide, s1, hall, hchain, rfl⟩,
    claim_C1_amended rFW "" 14 rW1 [rW2, rFW] rfl (by simp [rFW]) (by decide)
      s1 hall hchain rfl⟩

/-- Concrete out-of-order run refuting C1 as stated: a per-frame parallel job
whose frame 1 completes before frame 0. -/
def jobX : RenderJob := ⟨2, 1, 4, 4, .PerFrame⟩

def rX1 : RenderStatus := ⟨jobX, [], none⟩

def rX2 : RenderStatus := ⟨jobX, [(1, ⟨[], [11]⟩)], none⟩

def rX3 : RenderStatus := ⟨jobX, [(1, ⟨[], [11]⟩), (0, ⟨[], [10]⟩)], some [9]⟩

/-- C1 counterexample: with frames recorded out of index order (legal under
per-frame parallelism), the first `FrameMeta` message of the run carries
frame index 1, not 0 -- the claimed sequence `FrameMeta(0), …` with the i-th
meta carrying `i` does not hold. -/
theorem claim_C1_counterexample :
    (runPasses allOk 14 "" .NeedsConfig [rX1, rX2, rX3]).1 =
      [.Meta (.Reset jobX ""), .Meta (.Frame 1), .Binary [11],
       .Meta (.Frame 0), .Binary [10], .Meta .Gif, .Binary [9]] ∧
    (runPasses allOk 14 "" .NeedsConfig [rX1, rX2, rX3]).1.get? 1 ≠
      some (.Meta (.Frame 0)) := by
  refine ⟨rfl, ?_⟩
  decide


/-! u32-faithful block scheduler and spiral (src/src/shared.rs `ceil_div`,
src/src/render.rs `ImageBlocker` and `render_frame`).  The source's block
arithmetic is `u32` and the spiral radius is cast `as u16` (render.rs line
170); the definitions below keep those widths, writing every wrapping
operation as an explicit `% 2^32` (Rust release-build semantics; debug builds
panic at exactly the inputs where an operation wraps, and either way the
claimed block sequence is not produced there). -/

/-- u32 wrapping addition. -/
def add32 (a b : ℕ) : ℕ := (a + b) % 4294967296

/-- u32 wrapping subtraction (operands are u32 values, below 2^32). -/
def sub32 (a b : ℕ) : ℕ := (a + 4294967296 - b) % 4294967296

/-- u32 wrapping multiplication. -/
def mul32 (a b : ℕ) : ℕ := (a * b) % 4294967296

/-- From src/src/shared.rs: `ceil_div(x, y) = (x + y - 1) / y` on u32 (the
sum and the decrement wrap; the division cannot). -/
def ceil_div32 (x y : ℕ) : ℕ := sub32 (add32 x y) 1 / y

/-- From src/src/render.rs, `ImageBlocker::new`: fixed 32x32 block size, u32
block counts. -/
def ImageBlocker.new32 (image_width image_height : ℕ) : ImageBlocker :=
  { image_width := image_width
    image_height := image_height
    block_width := 32
    block_height := 32
    block_count_x := ceil_div32 image_width 32
    block_count_y := ceil_div32 image_height 32
    block_index := 0 }

/-- From src/src/render.rs, `Iterator for ImageBlocker::next`, keeping the
u32 wrapping of every arithmetic operation (the source computes the y origin
with `block_width`; both block dimensions are 32).  The `%` and `/` by
`block_count_x` cannot divide by zero: when `block_count_x = 0` the wrapped
product `block_count` is 0 and the guard returns `none` first, exactly as the
source returns before reaching its division. -/
def ImageBlocker.next32 (s : ImageBlocker) : Option (RenderBlock × ImageBlocker) :=
  let block_count := mul32 s.block_count_x s.block_count_y
  if s.block_index ≥ block_count then
    none
  else
    let block_x := s.block_index % s.block_count_x
    let block_y := s.block_index / s.block_count_x
    let x := mul32 block_x s.block_width
    let y := mul32 block_y s.block_width
    let x_end := min (mul32 (add32 block_x 1) s.block_width) s.image_width
    let y_end := min (mul32 (add32 block_y 1) s.block_height) s.image_height
    some (⟨x, y, sub32 x_end x, sub32 y_end y⟩,
      { s with block_index := add32 s.block_index 1 })

/-- Run the u32 iterator for at most `fuel` steps, collecting emitted blocks. -/
def blockerRun32 : ℕ → ImageBlocker → List RenderBlock
  | 0, _ => []
  | fuel + 1, s =>
    match s.next32 with
    | none => []
    | some (b, s') => b :: blockerRun32 fuel s'

/-- The block list `ImageBlocker::new(w, h).collect()` under u32 semantics.
The iterator emits exactly the wrapped `block_count_x * block_count_y` blocks
(the cursor starts at 0 and increases by 1 until it reaches that count), so
that is enough fuel. -/
def imageBlocks32 (w h : ℕ) : List RenderBlock :=
  blockerRun32 (mul32 (ceil_div32 w 32) (ceil_div32 h 32)) (ImageBlocker.new32 w h)

/-- The u32 `ImageBlocker` for a w x h image with the cursor at `j`. -/
def blocker32State (w h j : ℕ) : ImageBlocker :=
  { ImageBlocker.new32 w h with block_index := j }

/-- Below 2^32 - 31 the wrapped `ceil_div` agrees with the unbounded one
(at `x = 2^32 - 32` the sum wraps to 0 but the decrement wraps back to
`2^32 - 1 = x + 31`, so the bound `x + 31 < 2^32` is exactly right). -/
theorem ceil_div32_eq {x : ℕ} (hx : x + 31 < 4294967296) :
    ceil_div32 x 32 = ceil_div x 32 := by
  unfold ceil_div32 add32 sub32 ceil_div
  omega

theorem blockerRun32_eq_map (w h : ℕ) (hw : 1 ≤ w)
    (hw32 : w + 31 < 4294967296) (hh32 : h + 31 < 4294967296)
    (hprod : ceil_div w 32 * ceil_div h 32 < 4294967296) :
    ∀ n j, j + n = ceil_div w 32 * ceil_div h 32 →
      blockerRun32 n (blocker32State w h j) = (List.range' j n).map (blockAt w h) := by
  have hcx : ceil_div32 w 32 = ceil_div w 32 := ceil_div32_eq hw32
  have hcy : ceil_div32 h 32 = ceil_div h 32 := ceil_div32_eq hh32
  intro n
  induction n with
  | zero => intro j _; simp [blockerRun32]
  | succ n ih =>
    intro j hj
    have hlt : j < ceil_div w 32 * ceil_div h 32 := by omega
    have hnext : (blocker32State w h j).next32 =
        some (blockAt w h j, blocker32State w h (j + 1)) := by
      have hcpos : 0 < ceil_div w 32 := ceil_div_pos hw
      have hcw : ceil_div w 32 = (w + 31) / 32 := by unfold ceil_div; omega
      have hch : ceil_div h 32 = (h + 31) / 32 := by unfold ceil_div; omega
      have hbc : mul32 (ceil_div w 32) (ceil_div h 32) =
          ceil_div w 32 * ceil_div h 32 := by
        unfold mul32; exact Nat.mod_eq_of_lt hprod
      have hjM : j < 4294967296 := hlt.trans hprod
      obtain ⟨bx, hbx⟩ : ∃ bx, j % ceil_div w 32 = bx := ⟨_, rfl⟩
      obtain ⟨yb, hyb⟩ : ∃ yb, j / ceil_div w 32 = yb := ⟨_, rfl⟩
      have hbxlt : bx < ceil_div w 32 := hbx ▸ Nat.mod_lt j hcpos
      have hyblt : yb < ceil_div h 32 := by
        rw [← hyb, Nat.div_lt_iff_lt_mul hcpos, Nat.mul_comm]
        exact hlt
      have e1 : mul32 bx 32 = bx * 32 := by unfold mul32; omega
      have e2 : mul32 yb 32 = yb * 32 := by unfold mul32; omega
      have e3 : add32 bx 1 = bx + 1 := by unfold add32; omega
      have e4 : add32 yb 1 = yb + 1 := by unfold add32; omega
      have e5 : mul32 (bx + 1) 32 = (bx + 1) * 32 := by unfold mul32; omega
      have e6 : mul32 (yb + 1) 32 = (yb + 1) * 32 := by unfold mul32; omega
      have e7 : sub32 (min ((bx + 1) * 32) w) (bx * 32) =
          min ((bx + 1) * 32) w - bx * 32 := by
        unfold sub32; omega
      have e8 : sub32 (min ((yb + 1) * 32) h) (yb * 32) =
          min ((yb + 1) * 32) h - yb * 32 := by
        unfold sub32; omega
      have e9 : add32 j 1 = j + 1 := by unfold add32; omega
      simp only [ImageBlocker.next32, blocker32State, ImageBlocker.new32, blockAt,
        hcx, hcy]
      rw [hbc, if_neg (by simpa using Nat.not_le.mpr hlt), hbx, hyb,
        e3, e4, e5, e6, e1, e2, e7, e8, e9]
    rw [blockerRun32, hnext, List.range']
    simp only [List.map_cons, List.cons.injEq, true_and]
    exact ih (j + 1) (by omega)

/-- For image sizes where the u32 arithmetic does not overflow -- the two
`ceil_div` sums fit (w + 31 < 2^32, h + 31 < 2^32) and the block-count
product fits -- the u32 block list agrees with the idealized one. -/
theorem imageBlocks32_eq (w h : ℕ) (hw : 1 ≤ w)
    (hw32 : w + 31 < 4294967296) (hh32 : h + 31 < 4294967296)
    (hprod : ceil_div w 32 * ceil_div h 32 < 4294967296) :
    imageBlocks32 w h = imageBlocks w h := by
  have hcx : ceil_div32 w 32 = ceil_div w 32 := ceil_div32_eq hw32
  have hcy : ceil_div32 h 32 = ceil_div h 32 := ceil_div32_eq hh32
  have hbc : mul32 (ceil_div w 32) (ceil_div h 32) =
      ceil_div w 32 * ceil_div h 32 := by
    unfold mul32; exact Nat.mod_eq_of_lt hprod
  have h032 : ImageBlocker.new32 w h = blocker32State w h 0 := rfl
  unfold imageBlocks32
  rw [hcx, hcy, hbc, h032,
    blockerRun32_eq_map w h hw hw32 hh32 hprod (ceil_div w 32 * ceil_div h 32) 0
      (Nat.zero_add _),
    imageBlocks_eq_map, List.range_eq_range']

/-- C2 (amended): for every image width w >= 1 and height h >= 1 whose u32
block arithmetic does not overflow (w + 31 < 2^32, h + 31 < 2^32, and the
block-count product `block_count_x * block_count_y` fits in u32), the blocks
emitted by the `ImageBlocker` iterator lie within the w x h bounds, cover
every pixel exactly once, and are pairwise disjoint (the sequence itself is a
deterministic function of w and h by construction).  At overflowing sizes the
original claim fails: the counterexample below exhibits w = h = 2^31, where
the wrapped block count is 0 and no block is emitted. -/
theorem claim_C2_amended (w h : ℕ) (hw : 1 ≤ w) (hh : 1 ≤ h)
    (hw32 : w + 31 < 4294967296) (hh32 : h + 31 < 4294967296)
    (hprod : ceil_div w 32 * ceil_div h 32 < 4294967296) :
    (∀ b ∈ imageBlocks32 w h, b.x + b.width ≤ w ∧ b.y + b.height ≤ h) ∧
    (∀ px py, px < w → py < h →
      ∃! i, i < (imageBlocks32 w h).length ∧
        containsPx ((imageBlocks32 w h).getD i ⟨0, 0, 0, 0⟩) px py) ∧
    (∀ i j px py, i < (imageBlocks32 w h).length → j < (imageBlocks32 w h).length →
      i ≠ j → containsPx ((imageBlocks32 w h).getD i ⟨0, 0, 0, 0⟩) px py →
      containsPx ((imageBlocks32 w h).getD j ⟨0, 0, 0, 0⟩) px py → False) := by
  rw [imageBlocks32_eq w h hw hw32 hh32 hprod]
  exact imageBlocks_partition w h hw hh

/-- Witness for C2 at a concrete 64 x 48 image. -/
theorem claim_C2_witness :
    ((1 ≤ 64 ∧ 1 ≤ 48) ∧ 64 + 31 < 4294967296 ∧ 48 + 31 < 4294967296 ∧
      ceil_div 64 32 * ceil_div 48 32 < 4294967296) ∧
    (∀ b ∈ imageBlocks32 64 48, b.x + b.width ≤ 64 ∧ b.y + b.height ≤ 48) ∧
    (∀ px py, px < 64 → py < 48 →
      ∃! i, i < (imageBlocks32 64 48).length ∧
        containsPx ((imageBlocks32 64 48).getD i ⟨0, 0, 0, 0⟩) px py) ∧
    (∀ i j px py, i < (imageBlocks32 64 48).length → j < (imageBlocks32 64 48).length →
      i ≠ j → containsPx ((imageBlocks32 64 48).getD i ⟨0, 0, 0, 0⟩) px py →
      containsPx ((imageBlocks32 64 48).getD j ⟨0, 0, 0, 0⟩) px py → False) :=
  ⟨⟨⟨by decide, by decide⟩, by decide, by decide, by decide⟩,
    claim_C2_amended 64 48 (by decide) (by decide) (by decide) (by decide) (by decide)⟩

/-- C2 counterexample: at w = h = 2^31 (valid u32 image sizes) the u32
product `block_count_x * block_count_y = 2^26 * 2^26` wraps to 0, so the
iterator's guard is immediately true, no block is ever emitted, and pixel
(0, 0) -- like every other pixel -- lies in no block: the claimed exact
cover fails (debug builds panic on the same overflow; either way the claimed
tiling is not produced). -/
theorem claim_C2_counterexample :
    imageBlocks32 2147483648 2147483648 = [] ∧
    ¬ ∃ i, i < (imageBlocks32 2147483648 2147483648).length ∧
      containsPx ((imageBlocks32 2147483648 2147483648).getD i ⟨0, 0, 0, 0⟩) 0 0 := by
  have h1 : imageBlocks32 2147483648 2147483648 = [] := rfl
  refine ⟨h1, ?_⟩
  rintro ⟨i, hi, -⟩
  rw [h1] at hi
  simp at hi

/-- From src/src/render.rs, `render_frame` (lines 169-182): the spiral pass
over the block grid.  Radius and center are computed as in the source (`i32`
division; all reachable operands are nonnegative, so Euclidean and truncated
division agree), and the radius is cast `as u16`, truncating it mod 2^16;
out-of-range spiral coordinates are discarded (the filter keeps exactly the
coordinates the source does not `continue` past). -/
def spiralCoords32 (block_count_x block_count_y : ℤ) : List (ℤ × ℤ) :=
  let radius := ((max block_count_x block_count_y) / 2 + 1).toNat % 65536
  let center_x := block_count_x / 2 - 1
  let center_y := block_count_y / 2 - 1
  (chebyshevIterator center_x center_y radius).filter fun p =>
    decide (0 ≤ p.1 ∧ p.1 < block_count_x ∧ 0 ≤ p.2 ∧ p.2 < block_count_y)

/-- From src/src/render.rs, `render_frame`: the block index of each surviving
spiral coordinate (`block_y * block_count_x + block_x`).  The u32 block
counts are cast `as i32` by the source; that cast is value-preserving, since
a u32 `ceil_div` result is at most (2^32 - 1) / 32 < 2^31. -/
def spiralIdx32 (w h : ℕ) : List ℕ :=
  (spiralCoords32 (ceil_div32 w 32 : ℤ) (ceil_div32 h 32 : ℤ)).map
    fun p => (p.2 * (ceil_div32 w 32 : ℤ) + p.1).toNat

/-- From src/src/render.rs, `render_frame`: the blocks in spiral order
(`spiral_blocks.push(blocks[block_index])`). -/
def spiralBlocks32 (w h : ℕ) : List RenderBlock :=
  (spiralIdx32 w h).map fun i => (imageBlocks32 w h).getD i ⟨0, 0, 0, 0⟩

/-- When the radius fits in u16, the `as u16` cast is the identity and the
faithful spiral agrees with the idealized one. -/
theorem spiralCoords32_eq {a b : ℤ} (hr : ((max a b) / 2 + 1).toNat < 65536) :
    spiralCoords32 a b = spiralCoords a b := by
  unfold spiralCoords32 spiralCoords
  rw [Nat.mod_eq_of_lt hr]

/-- For images with no u32 overflow and a u16-exact radius (max block count
at most 131069, i.e. radius at most 65535), the faithful spiral block list
agrees with the idealized one. -/
theorem spiralBlocks32_eq (w h : ℕ) (hw : 1 ≤ w)
    (hw32 : w + 31 < 4294967296) (hh32 : h + 31 < 4294967296)
    (hprod : ceil_div w 32 * ceil_div h 32 < 4294967296)
    (hrad : max (ceil_div w 32) (ceil_div h 32) ≤ 131069) :
    spiralBlocks32 w h = spiralBlocks w h := by
  have hcx : ceil_div32 w 32 = ceil_div w 32 := ceil_div32_eq hw32
  have hcy : ceil_div32 h 32 = ceil_div h 32 := ceil_div32_eq hh32
  have hr : ((max ((ceil_div w 32 : ℕ) : ℤ) ((ceil_div h 32 : ℕ) : ℤ)) / 2 +
      1).toNat < 65536 := by
    omega
  unfold spiralBlocks32 spiralBlocks spiralIdx32 spiralIdx
  rw [hcx, hcy, spiralCoords32_eq hr, imageBlocks32_eq w h hw hw32 hh32 hprod]

/-- C3 (amended): for every image (w, h >= 1) whose u32 block arithmetic does
not overflow and whose spiral radius `max(block_count_x, block_count_y)/2 + 1`
fits in u16 (max block count at most 131069), the spiral pass -- the
Chebyshev iterator started at the computed center with the computed radius
cast `as u16`, discarding out-of-range coordinates -- emits every block
exactly once: the spiral block sequence is a permutation of the row-major
block enumeration; and whenever the computed grid center lies inside the grid
(both block counts at least 2) the first emitted block is the block at that
center.  At radius-truncating sizes the original claim fails: the
counterexample below exhibits a 131070 x 1 grid whose truncated radius is 0. -/
theorem claim_C3_amended (w h : ℕ) (hw : 1 ≤ w) (hh : 1 ≤ h)
    (hw32 : w + 31 < 4294967296) (hh32 : h + 31 < 4294967296)
    (hprod : ceil_div w 32 * ceil_div h 32 < 4294967296)
    (hrad : max (ceil_div w 32) (ceil_div h 32) ≤ 131069) :
    (spiralBlocks32 w h).Perm (imageBlocks32 w h) ∧
    (2 ≤ ceil_div w 32 → 2 ≤ ceil_div h 32 →
      (spiralBlocks32 w h).head? = some ((imageBlocks32 w h).getD
        ((((ceil_div h 32 : ℤ) / 2 - 1) * (ceil_div w 32 : ℤ) +
          ((ceil_div w 32 : ℤ) / 2 - 1)).toNat) ⟨0, 0, 0, 0⟩)) := by
  rw [spiralBlocks32_eq w h hw hw32 hh32 hprod hrad,
    imageBlocks32_eq w h hw hw32 hh32 hprod]
  exact spiralBlocks_perm_center w h hw hh

/-- Witness for C3 at a concrete 64 x 64 image (a 2 x 2 block grid). -/
theorem claim_C3_witness :
    ((1 ≤ 64 ∧ 64 + 31 < 4294967296 ∧
      ceil_div 64 32 * ceil_div 64 32 < 4294967296 ∧
      max (ceil_div 64 32) (ceil_div 64 32) ≤ 131069) ∧ 2 ≤ ceil_div 64 32) ∧
    (spiralBlocks32 64 64).Perm (imageBlocks32 64 64) ∧
    (spiralBlocks32 64 64).head? = some ((imageBlocks32 64 64).getD
      ((((ceil_div 64 32 : ℤ) / 2 - 1) * (ceil_div 64 32 : ℤ) +
        ((ceil_div 64 32 : ℤ) / 2 - 1)).toNat) ⟨0, 0, 0, 0⟩) :=
  ⟨⟨⟨by decide, by decide, by decide, by decide⟩, by decide⟩,
    (claim_C3_amended 64 64 (by decide) (by decide) (by decide) (by decide)
      (by decide) (by decide)).1,
    (claim_C3_amended 64 64 (by decide) (by decide) (by decide) (by decide)
      (by decide) (by decide)).2 (by decide) (by decide)⟩

/-- C3 counterexample: at a 131070 x 1 block grid (image 4194240 x 1, valid
u32 sizes with no u32 overflow), `max/2 + 1 = 65536` and the `as u16` cast
truncates the radius to 0, so the spiral visits only the center coordinate
(65534, -1), which is out of bounds: no block at all is emitted, and the
spiral sequence is not a permutation of the 131070-block row-major
enumeration. -/
theorem claim_C3_counterexample :
    spiralBlocks32 4194240 1 = [] ∧
    ¬ (spiralBlocks32 4194240 1).Perm (imageBlocks32 4194240 1) := by
  have h1 : spiralBlocks32 4194240 1 = [] := rfl
  refine ⟨h1, ?_⟩
  intro hp
  have hlen := hp.length_eq
  rw [h1, List.length_nil,
    imageBlocks32_eq 4194240 1 (by decide) (by decide) (by decide) (by decide),
    imageBlocks_length] at hlen
  exact absurd hlen (by decide)

/-- From src/src/render.rs, `render_frame` (lines 184-209): all spiral blocks
are submitted by the for-loop, then the await-loop collects one result per
submission. -/
def renderFrameEvents32 (w h : ℕ) : List REvent :=
  ((spiralBlocks32 w h).map REvent.submit) ++
    List.replicate (spiralBlocks32 w h).length REvent.collect

/-- C9 (amended): for every image (w, h >= 1) whose u32 block arithmetic does
not overflow and whose u16 spiral radius does not truncate (max block count
at most 131069), `render_frame` caps nothing -- it submits every block of the
frame before collecting any result, so the in-flight submission count reaches
the total block count of the image. -/
theorem claim_C9_amended (w h : ℕ) (hw : 1 ≤ w) (hh : 1 ≤ h)
    (hw32 : w + 31 < 4294967296) (hh32 : h + 31 < 4294967296)
    (hprod : ceil_div w 32 * ceil_div h 32 < 4294967296)
    (hrad : max (ceil_div w 32) (ceil_div h 32) ≤ 131069) :
    inFlightMax (renderFrameEvents32 w h) = (imageBlocks32 w h).length ∧
    (renderFrameEvents32 w h).take ((imageBlocks32 w h).length) =
      (spiralBlocks32 w h).map REvent.submit := by
  have hsb : spiralBlocks32 w h = spiralBlocks w h :=
    spiralBlocks32_eq w h hw hw32 hh32 hprod hrad
  have hev : renderFrameEvents32 w h = renderFrameEvents w h := by
    unfold renderFrameEvents32 renderFrameEvents
    rw [hsb]
  rw [hev, hsb, imageBlocks32_eq w h hw hw32 hh32 hprod]
  exact renderFrame_submits_all w h hw hh

/-- Witness for the amended C9 at a concrete 64 x 64 image. -/
theorem claim_C9_witness :
    (1 ≤ 64 ∧ 64 + 31 < 4294967296 ∧
      ceil_div 64 32 * ceil_div 64 32 < 4294967296 ∧
      max (ceil_div 64 32) (ceil_div 64 32) ≤ 131069) ∧
    inFlightMax (renderFrameEvents32 64 64) = (imageBlocks32 64 64).length ∧
    (renderFrameEvents32 64 64).take ((imageBlocks32 64 64).length) =
      (spiralBlocks32 64 64).map REvent.submit :=
  ⟨⟨by decide, by decide, by decide, by decide⟩,
    claim_C9_amended 64 64 (by decide) (by decide) (by decide) (by decide)
      (by decide) (by decide)⟩

/-- C9 counterexample to the original claim: a 64 x 64 image has 4 blocks;
the run's maximum in-flight count is 4 = the total block count, the first 4
events are all submissions, and the 5th event is the first collect -- so
in-flight submissions are not bounded by any configured queue depth and all
blocks are submitted before any result is collected. -/
theorem claim_C9_counterexample :
    (imageBlocks32 64 64).length = 4 ∧
    inFlightMax (renderFrameEvents32 64 64) = 4 ∧
    ((renderFrameEvents32 64 64).take 4).all
      (fun e => decide (e ≠ REvent.collect)) = true ∧
    (renderFrameEvents32 64 64).get? 4 = some REvent.collect := by
  refine ⟨by decide, by decide, by decide, by decide⟩


end Raytracer
